import Mathlib

/-!
Verification of the filesystem-based task-claiming and lifecycle protocol
implemented by the `BaseAgent` class shared by the worker agents of this
repository (reference implementation: `file-agent/file_agent/agent.py`;
the other agents carry textually identical copies of the protocol methods).

The filesystem is modelled as association lists from file basenames to task
records, one list per lifecycle stage directory (`pending`, `active`,
`completed`, `failed`).  `os.rename` is the atomic primitive: it is modelled
as a single state transition that removes the entry from the source stage and
inserts it into the destination stage.  Writing a file (`open(..., 'w')` +
`json.dump`) is modelled as an upsert into one stage list; `os.remove` as a
deletion.  Python exceptions that the code catches (`OSError`,
`FileNotFoundError`) correspond to the `none`/fallthrough branches of the
corresponding Lean functions.  LLM calls are opaque decision oracles and are
passed in as parameters, as are wall-clock timestamps.

Serialization (`json.dump(task, f, indent=2)` / `json.load(f)`) is modelled
at the byte level by an executable serializer and parser over a JSON value
type, mirroring Python's `json` module with `indent=2` and `ensure_ascii`
(floats do not occur in task records and are not modelled).
-/

namespace Orc

/-- A task record, with the fields used by the protocol
(`file-agent/file_agent/agent.py`).  Optional fields model dict keys that may
be absent; `task.get(k, d)` becomes `Option.getD`.  The nested
`context.original_goal` entry is flattened into `original_goal`, with the
remaining context entries carried opaquely in `context_extra`. -/
structure Task where
  id : String
  description : String := ""
  ttype : Option String := none
  requirements : List String := []
  priority : Option String := none
  dependencies : List String := []
  original_goal : Option String := none
  context_extra : List (String × String) := []
  status : Option String := none
  claimed_by : Option String := none
  claimed_at : Option String := none
  retry_count : Option Nat := none
  max_retries : Option Nat := none
  result : Option String := none
  completed_at : Option String := none
  error : Option String := none
  failed_at : Option String := none
  last_heartbeat : Option String := none
  heartbeat_count : Option Nat := none
deriving Repr, DecidableEq

/-- A stage directory: file basename ↦ task record. -/
abbrev Dir := List (String × Task)

/-- Context snapshot written by `save_result_to_context`. -/
structure CtxSnapshot where
  task_id : String
  description : String
  result : String
  created_at : String
  original_goal : Option String
deriving Repr, DecidableEq

/-- The shared workspace: the four lifecycle stage directories under
`<workspace>/tasks/`, plus the context store.  The directory IS the state:
a task's lifecycle stage is determined by which list holds its file. -/
structure FS where
  pending : Dir := []
  active : Dir := []
  completed : Dir := []
  failed : Dir := []
  context_store : List (String × CtxSnapshot) := []
deriving Repr, DecidableEq

/-- File write (`open(path, 'w')` + `json.dump`): upsert, replacing any
existing file of the same name. -/
def saveFile (dir : Dir) (name : String) (t : Task) : Dir :=
  (name, t) :: dir.filter (fun p => p.1 ≠ name)

/-- `os.remove` (and the removal half of `os.rename`). -/
def removeFile (dir : Dir) (name : String) : Dir :=
  dir.filter (fun p => p.1 ≠ name)

/-- In how many of the four stage directories a file of the given basename
is currently present (observable by any external reader). -/
def stage_count (fs : FS) (name : String) : Nat :=
  (if (fs.pending.lookup name).isSome then 1 else 0) +
  (if (fs.active.lookup name).isSome then 1 else 0) +
  (if (fs.completed.lookup name).isSome then 1 else 0) +
  (if (fs.failed.lookup name).isSome then 1 else 0)

/-- Per-agent in-memory state (`BaseAgent.__init__`) together with the shared
filesystem it operates on. -/
structure AgentState where
  agent_id : String
  capabilities : List String := []
  active_tasks : List String := []
  max_concurrent_tasks : Nat := 3
  fs : FS := {}
deriving Repr, DecidableEq

/-! ## The claim protocol -/

/-- `BaseAgent.claim_task`: atomically claim a pending task via `os.rename`.
If the pending file is gone (another agent won the race), the rename raises
and the `except (OSError, FileNotFoundError)` handler returns `None` with no
state mutation.  On success the claimed path is appended to the in-memory
`active_tasks` list and the record is re-loaded and re-saved with
`claimed_by`/`claimed_at` stamped.  `stampRaises` injects an `OSError` into
that load/save step (after the rename already committed): the handler still
returns `None`. -/
def claim_task (s : AgentState) (task_file : String) (now : String)
    (stampRaises : Bool) : Option String × AgentState :=
  match s.fs.pending.lookup task_file with
  | none => (none, s)
  | some t =>
      let claimed_file := s.agent_id ++ "_" ++ task_file
      let fs1 : FS := { s.fs with
        pending := removeFile s.fs.pending task_file,
        active := saveFile s.fs.active claimed_file t }
      let s1 : AgentState :=
        { s with fs := fs1, active_tasks := s.active_tasks ++ [claimed_file] }
      if stampRaises then (none, s1)
      else
        let t' := { t with claimed_by := some s.agent_id, claimed_at := some now }
        (some claimed_file,
         { s1 with fs := { fs1 with active := saveFile fs1.active claimed_file t' } })

/-! ## Dependency gating -/

/-- The completed-id set, recomputed on every check by re-scanning the
completed directory and collecting each record's `id` field
(`dependencies_satisfied`, lines 237–244). -/
def completed_ids (fs : FS) : List String :=
  fs.completed.map (fun p => p.2.id)

/-- `BaseAgent.dependencies_satisfied`: all listed dependency ids must appear
among the ids of the records currently in the completed directory. -/
def dependencies_satisfied (fs : FS) (task : Task) : Bool :=
  task.dependencies.all (fun dep_id => (completed_ids fs).contains dep_id)

/-! ## Admission decision -/

/-- `BaseAgent.can_handle`: local short-circuit — if `requirements` is
nonempty and shares no tag with the agent's capabilities, refuse; otherwise
defer to the evaluator LLM (opaque boolean oracle). -/
def can_handle (s : AgentState) (task : Task) (evaluator_yes : Bool) : Bool :=
  if ¬ task.requirements.isEmpty ∧
      ¬ task.requirements.any (fun r => s.capabilities.contains r) then
    false
  else evaluator_yes

/-- `BaseAgent.should_handle`: concurrency cap, then metacognitive veto, then
capability check, then fitness-vs-threshold.  The three LLM judgments are
opaque oracle parameters. -/
def should_handle (s : AgentState) (task : Task)
    (reflect_proceed : Bool) (evaluator_yes : Bool)
    (fitness : Nat) (threshold : Nat) : Bool :=
  if s.active_tasks.length ≥ s.max_concurrent_tasks then false
  else if ¬ reflect_proceed then false
  else if ¬ can_handle s task evaluator_yes then false
  else fitness ≥ threshold

/-! ## Goal validation and resolution -/

/-- Python's `"YES" in response.upper()`: substring search after
upper-casing. -/
def contains_yes : List Char → Bool
  | 'Y' :: 'E' :: 'S' :: _ => true
  | _ :: rest => contains_yes rest
  | [] => false

/-- Python truthiness of `task.get('context', {}).get('original_goal')`:
the goal is absent when the key is missing/None or the string is empty. -/
def goal_absent (task : Task) : Bool :=
  match task.original_goal with
  | none => true
  | some g => g.isEmpty

/-- `BaseAgent.validates_goal_progress`: if the original goal is absent,
trivially pass.  Otherwise ask the metacognition LLM; the oracle either
answers (`Except.ok response`, pass iff the response contains "YES"
case-insensitively) or raises (`Except.error`), in which case the
`except` handler returns `True` ("default to accepting result"). -/
def validates_goal_progress (task : Task) (_result : String)
    (oracle : Except String String) : Bool :=
  if goal_absent task then true
  else
    match oracle with
    | Except.ok response => contains_yes response.toUpper.data
    | Except.error _ => true

/-- The record mutation applied by `complete_task` before writing the
completed file. -/
def complete_stamp (t : Task) (result now : String) : Task :=
  { t with result := some result, completed_at := some now,
           status := some "completed" }

/-- First half of `BaseAgent.complete_task`: stamp the record and write it
into the completed directory under the *same basename as the active file*.
At this point the active file still exists (`os.remove` has not run yet). -/
def complete_task_save (s : AgentState) (task_file : String) (t : Task)
    (result now : String) : AgentState :=
  { s with fs := { s.fs with
      completed := saveFile s.fs.completed task_file (complete_stamp t result now) } }

/-- Second half of `BaseAgent.complete_task`: `os.remove` the active file,
then `save_result_to_context` writes the context snapshot. -/
def complete_task_finish (s : AgentState) (task_file : String) (t : Task)
    (result now : String) : AgentState :=
  let s1 := { s with fs := { s.fs with active := removeFile s.fs.active task_file } }
  { s1 with fs := { s1.fs with
      context_store := (t.id ++ "_context.json",
        { task_id := t.id, description := t.description, result := result,
          created_at := now, original_goal := t.original_goal }) ::
        s1.fs.context_store.filter (fun p => p.1 ≠ t.id ++ "_context.json") } }

/-- `BaseAgent.complete_task`: load the active record, write the stamped
record into `completed/` (keeping the active basename), then remove the
active file and emit the context snapshot.  A load failure is swallowed by
the `except` handler (state unchanged). -/
def complete_task (s : AgentState) (task_file : String) (result now : String) :
    AgentState :=
  match s.fs.active.lookup task_file with
  | none => s
  | some t => complete_task_finish (complete_task_save s task_file t result now)
      task_file t result now

/-- The record mutation applied by `fail_task`: stamp `error`, `failed_at`,
`status` and increment `retry_count` (defaulting a missing counter to 0).
Note the stamps are applied on *both* the retry and the permanent-failure
paths. -/
def fail_stamp (t : Task) (error_message now : String) : Task :=
  { t with error := some error_message, failed_at := some now,
           status := some "failed",
           retry_count := some (t.retry_count.getD 0 + 1) }

/-- First half of `BaseAgent.fail_task` after stamping: route the stamped
record.  If the incremented `retry_count` is still below `max_retries`
(default 3) the record is written back into `pending/` under the new name
`retry_<active-basename>`; otherwise it is written into `failed/` under the
active basename.  The active file still exists at this point. -/
def fail_task_route (s : AgentState) (task_file : String) (t' : Task) :
    AgentState :=
  if t'.retry_count.getD 0 < t'.max_retries.getD 3 then
    { s with fs := { s.fs with
        pending := saveFile s.fs.pending ("retry_" ++ task_file) t' } }
  else
    { s with fs := { s.fs with
        failed := saveFile s.fs.failed task_file t' } }

/-- `BaseAgent.fail_task`: load the active record, stamp and route it, then
`os.remove` the active file.  A load failure is swallowed by the `except`
handler (state unchanged). -/
def fail_task (s : AgentState) (task_file : String)
    (error_message now : String) : AgentState :=
  match s.fs.active.lookup task_file with
  | none => s
  | some t =>
      let s1 := fail_task_route s task_file (fail_stamp t error_message now)
      { s1 with fs := { s1.fs with active := removeFile s1.fs.active task_file } }

/-- The record mutation applied by `update_task_heartbeat`. -/
def hb_stamp (t : Task) (now : String) : Task :=
  { t with last_heartbeat := some now,
           heartbeat_count := some (t.heartbeat_count.getD 0 + 1) }

/-- `BaseAgent.update_task_heartbeat`: rewrite the active record with
heartbeat fields refreshed; errors are swallowed. -/
def update_task_heartbeat (s : AgentState) (task_file : String) (now : String) :
    AgentState :=
  match s.fs.active.lookup task_file with
  | none => s
  | some t =>
      { s with fs := { s.fs with
          active := saveFile s.fs.active task_file (hb_stamp t now) } }

/-- `BaseAgent.process_task`: heartbeat, run the executor (plan generation
plus tool execution, an opaque external capability that either returns a
result string or raises), validate the result against the original goal, and
resolve the task via `complete_task` or `fail_task`.  Any exception raised
inside the `try` block (modelled: a missing task file, or the executor
raising) is converted by the `except` handler into `fail_task` with a
"Processing error" message.  The `finally` block removes the file from the
in-memory `active_tasks` list. -/
def process_task (s : AgentState) (task_file : String)
    (executor : Except String String) (validator : Except String String)
    (now : String) : AgentState :=
  let s' :=
    match s.fs.active.lookup task_file with
    | none => fail_task s task_file "Processing error: task file missing" now
    | some t =>
        let s1 := update_task_heartbeat s task_file now
        match executor with
        | Except.error e => fail_task s1 task_file ("Processing error: " ++ e) now
        | Except.ok execution_result =>
            if validates_goal_progress t execution_result validator then
              complete_task s1 task_file execution_result now
            else
              fail_task s1 task_file "Result doesn't advance original goal" now
  { s' with active_tasks := s'.active_tasks.erase task_file }

/-! ## The worker loop body -/

/-- One iteration structure of `BaseAgent.monitor_workspace`'s inner `for`
loop over the snapshot returned by `scan_pending_tasks`: load each task,
skip it unless `dependencies_satisfied`, then ask `should_handle`
(an opaque decision oracle here), then attempt `claim_task`; on a successful
claim stop scanning (the loop `break`s and processes the claimed file).  The
first component of the result is the list of files on which a claim was
*attempted* (ghost instrumentation for the proofs). -/
def monitor_go (decide_handle : AgentState → Task → Bool) (now : String) :
    List (String × Task) → AgentState → List String × Option String × AgentState
  | [], s => ([], none, s)
  | (task_file, task) :: rest, s =>
      if ¬ dependencies_satisfied s.fs task then
        monitor_go decide_handle now rest s
      else if decide_handle s task then
        match claim_task s task_file now false with
        | (some claimed_file, s') => ([task_file], some claimed_file, s')
        | (none, s') =>
            let r := monitor_go decide_handle now rest s'
            (task_file :: r.1, r.2.1, r.2.2)
      else monitor_go decide_handle now rest s

/-- One polling pass of `monitor_workspace` over the current pending
snapshot. -/
def monitor_pass (decide_handle : AgentState → Task → Bool) (now : String)
    (s : AgentState) : List String × Option String × AgentState :=
  monitor_go decide_handle now s.fs.pending s

/-! ## Interleaved execution of two racing `claim_task` calls

`claim_task` performs exactly one operation on the shared `pending`
directory: the `os.rename`.  To reason about two agents racing on the same
pending file we split `claim_task` into its atomic filesystem events and run
the two copies under an arbitrary scheduler. -/

/-- Program counter of one in-flight `claim_task` call:
`start` = about to execute `os.rename`; `stamp` = rename committed, about to
re-load/re-save the claimed file with `claimed_by`/`claimed_at`;
`done ret` = returned `ret`. -/
inductive ClaimPC where
  | start
  | stamp
  | done (ret : Option String)
deriving Repr, DecidableEq

/-- One atomic step of an in-flight `claim_task` call by `agent` on the
pending file `task_file`: the rename (which either commits and moves the
file into `active`, appending to the agent's in-memory `active_tasks` list
`lo`, or raises, making the call return `None` without touching any state),
followed by the stamping load/save on the agent's own active file. -/
def claim_step (agent task_file now : String) (pc : ClaimPC)
    (lo : List String) (fs : FS) : ClaimPC × List String × FS :=
  match pc with
  | ClaimPC.start =>
      match fs.pending.lookup task_file with
      | some t =>
          let claimed_file := agent ++ "_" ++ task_file
          (ClaimPC.stamp, lo ++ [claimed_file],
           { fs with pending := removeFile fs.pending task_file,
                     active := saveFile fs.active claimed_file t })
      | none => (ClaimPC.done none, lo, fs)
  | ClaimPC.stamp =>
      let claimed_file := agent ++ "_" ++ task_file
      match fs.active.lookup claimed_file with
      | some t =>
          let t' := { t with claimed_by := some agent, claimed_at := some now }
          (ClaimPC.done (some claimed_file), lo,
           { fs with active := saveFile fs.active claimed_file t' })
      | none => (ClaimPC.done none, lo, fs)
  | ClaimPC.done r => (ClaimPC.done r, lo, fs)

/-- Configuration of the two-agent race: each agent's program counter and
in-memory `active_tasks` list, plus the shared filesystem. -/
structure RaceConf where
  pc1 : ClaimPC
  pc2 : ClaimPC
  local1 : List String
  local2 : List String
  fs : FS
deriving Repr, DecidableEq

/-- Scheduler step: `true` lets agent 1 execute its next atomic event,
`false` lets agent 2. -/
def race_step (task_file now a1 a2 : String) (choice : Bool) (c : RaceConf) :
    RaceConf :=
  if choice then
    let r := claim_step a1 task_file now c.pc1 c.local1 c.fs
    { c with pc1 := r.1, local1 := r.2.1, fs := r.2.2 }
  else
    let r := claim_step a2 task_file now c.pc2 c.local2 c.fs
    { c with pc2 := r.1, local2 := r.2.1, fs := r.2.2 }

/-- Run the race under an arbitrary schedule. -/
def race_run (task_file now a1 a2 : String) : List Bool → RaceConf → RaceConf
  | [], c => c
  | b :: bs, c => race_run task_file now a1 a2 bs (race_step task_file now a1 a2 b c)

/-- An in-flight call has won the race (its rename committed) or has already
returned the new active path. -/
def claim_winner : ClaimPC → Bool
  | ClaimPC.stamp => true
  | ClaimPC.done (some _) => true
  | _ => false

/-- Invariant of the two-agent race: once anybody has won, the pending file
is gone, and the two calls never both win. -/
def race_inv (task_file : String) (c : RaceConf) : Prop :=
  ((claim_winner c.pc1 = true ∨ claim_winner c.pc2 = true) →
      c.fs.pending.lookup task_file = none) ∧
  ¬ (claim_winner c.pc1 = true ∧ claim_winner c.pc2 = true)

/-! ## Byte-level serialization (`save_task` / `load_task`)

`save_task` is `json.dump(task, f, indent=2)` and `load_task` is
`json.load(f)`.  We model JSON values (task records contain null, booleans,
integers, strings, arrays and string-keyed objects; floats do not occur) and
implement the exact text produced by Python's serializer with `indent=2` and
`ensure_ascii=True`, plus a whitespace-tolerant recursive-descent parser
mirroring Python's decoder. -/

/-- JSON values.  Objects model Python dicts: insertion-ordered string-keyed
members. -/
inductive Json where
  | null
  | bool (b : Bool)
  | num (n : Int)
  | str (s : String)
  | arr (elems : List Json)
  | obj (members : List (String × Json))
deriving Repr

/-- `'\x7b'` — written via codepoint to keep brace characters out of
literals. -/
def lbrace : Char := Char.ofNat 123

/-- `'\x7d'`. -/
def rbrace : Char := Char.ofNat 125

/-- Lower-case hex digit, as produced by Python's `'\\u{0:04x}'.format`. -/
def hexDigitChar (n : Nat) : Char :=
  if n < 10 then Char.ofNat (48 + n) else Char.ofNat (87 + n)

/-- Four lower-case hex digits. -/
def hex4 (n : Nat) : List Char :=
  [hexDigitChar (n / 4096 % 16), hexDigitChar (n / 256 % 16),
   hexDigitChar (n / 16 % 16), hexDigitChar (n % 16)]

/-- Escaping of one character by Python's `ensure_ascii` encoder: `"` and
`\\` get backslash escapes, the five control shortcuts are used, printable
ASCII passes through, everything else becomes `\\uXXXX` (with a surrogate
pair above U+FFFF). -/
def escapeChar (c : Char) : List Char :=
  if c = '"' then ['\\', '"']
  else if c = '\\' then ['\\', '\\']
  else if c.toNat = 8 then ['\\', 'b']
  else if c.toNat = 9 then ['\\', 't']
  else if c.toNat = 10 then ['\\', 'n']
  else if c.toNat = 12 then ['\\', 'f']
  else if c.toNat = 13 then ['\\', 'r']
  else if 32 ≤ c.toNat ∧ c.toNat ≤ 126 then [c]
  else if c.toNat < 65536 then '\\' :: 'u' :: hex4 c.toNat
  else
    let v := c.toNat - 65536
    ('\\' :: 'u' :: hex4 (55296 + v / 1024)) ++ ('\\' :: 'u' :: hex4 (56320 + v % 1024))

/-- Escape a whole string body. -/
def escapeString (s : List Char) : List Char :=
  (s.map escapeChar).flatten

/-- A JSON string literal: `"` body `"`. -/
def dumpString (s : String) : List Char :=
  '"' :: (escapeString s.data ++ ['"'])

/-- Decimal digit character. -/
def digitChar (n : Nat) : Char := Char.ofNat (48 + n)

/-- Decimal digits of a natural number, most significant first
(`repr` of a Python int). -/
def natToChars (n : Nat) : List Char :=
  if n < 10 then [digitChar n]
  else natToChars (n / 10) ++ [digitChar (n % 10)]
decreasing_by exact Nat.div_lt_self (by omega) (by omega)

/-- `repr` of a Python int. -/
def intToChars (i : Int) : List Char :=
  if i < 0 then '-' :: natToChars i.natAbs else natToChars i.natAbs

/-- `indent=2`: the indentation prefix at a given nesting level. -/
def indentChars (level : Nat) : List Char := List.replicate (2 * level) ' '

mutual

/-- The exact character stream `json.dumps(v, indent=2)` produces at nesting
depth `level` (separators `(',', ': ')`, newline plus indentation around
container members, empty containers inline). -/
def dumpVal : Json → Nat → List Char
  | Json.null, _ => 'n' :: 'u' :: 'l' :: 'l' :: []
  | Json.bool true, _ => 't' :: 'r' :: 'u' :: 'e' :: []
  | Json.bool false, _ => 'f' :: 'a' :: 'l' :: 's' :: 'e' :: []
  | Json.num n, _ => intToChars n
  | Json.str s, _ => dumpString s
  | Json.arr [], _ => '[' :: ']' :: []
  | Json.arr (x :: xs), level =>
      '[' :: '\n' :: (indentChars (level + 1) ++ dumpVal x (level + 1) ++
        dumpItems xs (level + 1) ++ '\n' :: (indentChars level ++ [']']))
  | Json.obj [], _ => lbrace :: rbrace :: []
  | Json.obj ((k, v) :: ms), level =>
      lbrace :: '\n' :: (indentChars (level + 1) ++ dumpString k ++
        ':' :: ' ' :: (dumpVal v (level + 1) ++ dumpMembers ms (level + 1) ++
          '\n' :: (indentChars level ++ [rbrace])))

/-- Second and later array elements: `,\n` + indent + element. -/
def dumpItems : List Json → Nat → List Char
  | [], _ => []
  | x :: xs, level =>
      ',' :: '\n' :: (indentChars level ++ dumpVal x level ++ dumpItems xs level)

/-- Second and later object members: `,\n` + indent + key + `: ` + value. -/
def dumpMembers : List (String × Json) → Nat → List Char
  | [], _ => []
  | (k, v) :: ms, level =>
      ',' :: '\n' :: (indentChars level ++ dumpString k ++
        ':' :: ' ' :: (dumpVal v level ++ dumpMembers ms level))

end

/-- `json.dumps(v, indent=2)`. -/
def json_dumps (v : Json) : String := String.mk (dumpVal v 0)

/-- JSON insignificant whitespace. -/
def isWsChar (c : Char) : Bool :=
  c = ' ' ∨ c = '\t' ∨ c = '\n' ∨ c = '\r'

/-- Skip insignificant whitespace. -/
def skipWs : List Char → List Char
  | [] => []
  | c :: rest => if isWsChar c then skipWs rest else c :: rest

/-- Value of one hex digit (Python accepts both cases). -/
def parseHexDigit (c : Char) : Option Nat :=
  if 48 ≤ c.toNat ∧ c.toNat ≤ 57 then some (c.toNat - 48)
  else if 97 ≤ c.toNat ∧ c.toNat ≤ 102 then some (c.toNat - 87)
  else if 65 ≤ c.toNat ∧ c.toNat ≤ 70 then some (c.toNat - 55)
  else none

/-- Undo a two-character escape (Python's decoder's BACKSLASH table). -/
def unescapeShort (e : Char) : Option Char :=
  if e = '"' then some '"'
  else if e = '\\' then some '\\'
  else if e = '/' then some '/'
  else if e = 'b' then some (Char.ofNat 8)
  else if e = 'f' then some (Char.ofNat 12)
  else if e = 'n' then some '\n'
  else if e = 'r' then some (Char.ofNat 13)
  else if e = 't' then some '\t'
  else none

/-- Four hex digits, combined. -/
def parseHex4 : List Char → Option (Nat × List Char)
  | h1 :: h2 :: h3 :: h4 :: rest =>
      match parseHexDigit h1, parseHexDigit h2,
            parseHexDigit h3, parseHexDigit h4 with
      | some d1, some d2, some d3, some d4 =>
          some (((d1 * 16 + d2) * 16 + d3) * 16 + d4, rest)
      | _, _, _, _ => none
  | _ => none

/-- A `\\uXXXX` unit (used for the low half of a surrogate pair). -/
def parseUEscape : List Char → Option (Nat × List Char)
  | '\\' :: 'u' :: rest => parseHex4 rest
  | _ => none

/-- Body of a string literal after the opening quote, undoing `escapeChar`;
surrogate pairs are recombined.  (Python would keep a lone surrogate escape
as a lone surrogate code unit; such strings cannot arise from the
serializer, and Lean `Char`s cannot hold them, so the parser rejects them.)
The first argument is recursion fuel, a Lean totality device: each produced
character consumes at least one input character, so any fuel of at least
the input length is enough. -/
def parseStringBody : Nat → List Char → Option (List Char × List Char)
  | 0, _ => none
  | _ + 1, [] => none
  | fuel + 1, c :: rest =>
      if c = '"' then some ([], rest)
      else if c = '\\' then
        match rest with
        | [] => none
        | e :: rest2 =>
            if e = 'u' then
              match parseHex4 rest2 with
              | some (n, rest3) =>
                  if 55296 ≤ n ∧ n < 56320 then
                    match parseUEscape rest3 with
                    | some (m, rest4) =>
                        if 56320 ≤ m ∧ m < 57344 then
                          (parseStringBody fuel rest4).map
                            (fun p => (Char.ofNat
                              (65536 + (n - 55296) * 1024 + (m - 56320))
                                :: p.1, p.2))
                        else none
                    | none => none
                  else if 56320 ≤ n ∧ n < 57344 then none
                  else
                    (parseStringBody fuel rest3).map
                      (fun p => (Char.ofNat n :: p.1, p.2))
              | none => none
            else
              match unescapeShort e with
              | some u =>
                  (parseStringBody fuel rest2).map
                    (fun p => (u :: p.1, p.2))
              | none => none
      else
        (parseStringBody fuel rest).map (fun p => (c :: p.1, p.2))

/-- Decimal digit (the digit class of Python's number grammar). -/
def isDigitChar (c : Char) : Bool := 48 ≤ c.toNat ∧ c.toNat ≤ 57

/-- Accumulate a maximal run of decimal digits. -/
def parseDigitsAux (acc : Nat) : List Char → Nat × List Char
  | [] => (acc, [])
  | c :: rest =>
      if isDigitChar c then parseDigitsAux (acc * 10 + (c.toNat - 48)) rest
      else (acc, c :: rest)

/-- An integer literal (optional minus sign, then digits).  Python's decoder
also accepts fractions and exponents, which the serializer of this value
type never emits. -/
def parseNumber : List Char → Option (Int × List Char)
  | [] => none
  | c :: rest =>
      if c = '-' then
        match rest with
        | [] => none
        | d :: _ =>
            if isDigitChar d then
              let p := parseDigitsAux 0 rest
              some (-(p.1 : Int), p.2)
            else none
      else if isDigitChar c then
        let p := parseDigitsAux 0 (c :: rest)
        some ((p.1 : Int), p.2)
      else none

mutual

/-- Parse one JSON value starting at a non-whitespace character; `fuel`
bounds the nesting recursion. -/
def parseVal : Nat → List Char → Option (Json × List Char)
  | 0, _ => none
  | _ + 1, [] => none
  | fuel + 1, c :: rest =>
      if c = 'n' then
        match rest with
        | 'u' :: 'l' :: 'l' :: r => some (Json.null, r)
        | _ => none
      else if c = 't' then
        match rest with
        | 'r' :: 'u' :: 'e' :: r => some (Json.bool true, r)
        | _ => none
      else if c = 'f' then
        match rest with
        | 'a' :: 'l' :: 's' :: 'e' :: r => some (Json.bool false, r)
        | _ => none
      else if c = '"' then
        match parseStringBody rest.length rest with
        | some (cs, r) => some (Json.str (String.mk cs), r)
        | none => none
      else if c = '[' then
        match skipWs rest with
        | ']' :: r => some (Json.arr [], r)
        | r1 =>
            match parseVal fuel r1 with
            | some (x, r2) =>
                match parseItems fuel r2 with
                | some (xs, r3) => some (Json.arr (x :: xs), r3)
                | none => none
            | none => none
      else if c = lbrace then
        match skipWs rest with
        | [] => none
        | d :: r1 =>
            if d = rbrace then some (Json.obj [], r1)
            else
              match parseMember fuel (d :: r1) with
              | some (m, r2) =>
                  match parseMembers fuel r2 with
                  | some (ms, r3) => some (Json.obj (m :: ms), r3)
                  | none => none
              | none => none
      else
        match parseNumber (c :: rest) with
        | some (n, r) => some (Json.num n, r)
        | none => none

/-- After one array element: `,` + next element, repeatedly, then `]`. -/
def parseItems : Nat → List Char → Option (List Json × List Char)
  | 0, _ => none
  | fuel + 1, input =>
      match skipWs input with
      | ']' :: r => some ([], r)
      | ',' :: r =>
          match parseVal fuel (skipWs r) with
          | some (x, r2) =>
              match parseItems fuel r2 with
              | some (xs, r3) => some (x :: xs, r3)
              | none => none
          | none => none
      | _ => none

/-- One `"key": value` member, starting at the opening quote of the key. -/
def parseMember : Nat → List Char → Option ((String × Json) × List Char)
  | 0, _ => none
  | fuel + 1, input =>
      match input with
      | '"' :: r =>
          match parseStringBody r.length r with
          | some (k, r2) =>
              match skipWs r2 with
              | ':' :: r3 =>
                  match parseVal fuel (skipWs r3) with
                  | some (v, r4) => some ((String.mk k, v), r4)
                  | none => none
              | _ => none
          | none => none
      | _ => none

/-- After one object member: `,` + next member, repeatedly, then the closing
brace. -/
def parseMembers : Nat → List Char → Option (List (String × Json) × List Char)
  | 0, _ => none
  | fuel + 1, input =>
      match skipWs input with
      | [] => none
      | d :: r =>
          if d = rbrace then some ([], r)
          else if d = ',' then
            match parseMember fuel (skipWs r) with
            | some (m, r2) =>
                match parseMembers fuel r2 with
                | some (ms, r3) => some (m :: ms, r3)
                | none => none
            | none => none
          else none

end

/-- The continuation after a serialized number must not begin with a digit,
so the maximal digit run ends exactly at the value boundary. -/
def numSafe : List Char → Prop
  | [] => True
  | c :: _ => isDigitChar c = false

mutual

/-- Bound on the parser fuel needed for a value. -/
def jsize : Json → Nat
  | Json.null => 1
  | Json.bool _ => 1
  | Json.num _ => 1
  | Json.str _ => 1
  | Json.arr xs => 1 + jsizeItems xs
  | Json.obj ms => 1 + jsizeMembers ms

/-- Fuel bound for the element loop. -/
def jsizeItems : List Json → Nat
  | [] => 1
  | x :: xs => 1 + jsize x + jsizeItems xs

/-- Fuel bound for the member loop. -/
def jsizeMembers : List (String × Json) → Nat
  | [] => 1
  | (_, v) :: ms => 1 + jsize v + jsizeMembers ms

end

/-- Round-trip property of one value: its serialization at any nesting
level, followed by any digit-free continuation, parses back to exactly the
value with the continuation untouched. -/
def ValRT (j : Json) : Prop :=
  ∀ (level : Nat) (rest : List Char) (fuel : Nat),
    jsize j ≤ fuel → numSafe rest →
    parseVal fuel (dumpVal j level ++ rest) = some (j, rest)

/-- `json.loads`: skip leading whitespace, parse one value, require only
whitespace to remain. -/
def json_loads (s : String) : Option Json :=
  match parseVal (s.length + 1) (skipWs s.data) with
  | some (v, rest) => if skipWs rest = [] then some v else none
  | none => none

/-- `BaseAgent.save_task` at the byte level: serialize the record and write
the file (overwriting). -/
def save_task (files : List (String × String)) (task_file : String)
    (task : Json) : List (String × String) :=
  (task_file, json_dumps task) :: files.filter (fun p => p.1 ≠ task_file)

/-- `BaseAgent.load_task` at the byte level: read the file and deserialize. -/
def load_task (files : List (String × String)) (task_file : String) :
    Option Json :=
  (files.lookup task_file).bind json_loads

/-! # Theorems

First, lookup lemmas for the directory model. -/

theorem lookup_cons_self (k : String) (v : Task) (d : Dir) :
    ((k, v) :: d).lookup k = some v := by
  simp [List.lookup]

theorem lookup_cons_ne (k m : String) (v : Task) (d : Dir) (h : m ≠ k) :
    ((k, v) :: d).lookup m = d.lookup m := by
  rw [List.lookup, beq_false_of_ne h]

theorem lookup_filter_ne (d : Dir) (n m : String) (h : m ≠ n) :
    (d.filter (fun p => p.1 ≠ n)).lookup m = d.lookup m := by
  induction d with
  | nil => rfl
  | cons p d ih =>
      obtain ⟨k, v⟩ := p
      simp only [List.filter_cons, decide_eq_true_eq]
      by_cases hp : k = n
      · rw [if_neg (by simp [hp]), lookup_cons_ne k m v d (hp ▸ h), ih]
      · rw [if_pos hp]
        by_cases hm : m = k
        · subst hm
          rw [lookup_cons_self, lookup_cons_self]
        · rw [lookup_cons_ne k m v _ hm, lookup_cons_ne k m v d hm, ih]

theorem lookup_filter_self (d : Dir) (n : String) :
    (d.filter (fun p => p.1 ≠ n)).lookup n = none := by
  induction d with
  | nil => rfl
  | cons p d ih =>
      obtain ⟨k, v⟩ := p
      simp only [List.filter_cons, decide_eq_true_eq]
      by_cases hp : k = n
      · rw [if_neg (by simp [hp])]
        exact ih
      · rw [if_pos hp, lookup_cons_ne k n v _ (fun hc => hp hc.symm)]
        exact ih

theorem lookup_save_self (d : Dir) (n : String) (t : Task) :
    (saveFile d n t).lookup n = some t := by
  simp [saveFile, List.lookup]

theorem lookup_save_ne (d : Dir) (n m : String) (t : Task) (h : m ≠ n) :
    (saveFile d n t).lookup m = d.lookup m := by
  rw [saveFile, lookup_cons_ne n m t _ h]
  exact lookup_filter_ne d n m h

theorem lookup_remove_self (d : Dir) (n : String) :
    (removeFile d n).lookup n = none :=
  lookup_filter_self d n

theorem lookup_remove_ne (d : Dir) (n m : String) (h : m ≠ n) :
    (removeFile d n).lookup m = d.lookup m :=
  lookup_filter_ne d n m h

/-! ## C3: failure path and retry policy -/

/-- Full behaviour of `fail_task` on a present active record (shared
helper). -/
theorem fail_task_spec (s : AgentState)
    (task_file error_message now : String) (t : Task)
    (h : s.fs.active.lookup task_file = some t) :
    ((fail_stamp t error_message now).retry_count
        = some (t.retry_count.getD 0 + 1) ∧
      t.retry_count.getD 0 < t.retry_count.getD 0 + 1) ∧
    (t.retry_count.getD 0 + 1 < t.max_retries.getD 3 →
      (fail_task s task_file error_message now).fs.pending.lookup
          ("retry_" ++ task_file) = some (fail_stamp t error_message now) ∧
      (fail_task s task_file error_message now).fs.failed = s.fs.failed) ∧
    (t.max_retries.getD 3 ≤ t.retry_count.getD 0 + 1 →
      (fail_task s task_file error_message now).fs.failed.lookup task_file
          = some (fail_stamp t error_message now) ∧
      (fail_task s task_file error_message now).fs.pending = s.fs.pending) ∧
    (fail_stamp t error_message now).error = some error_message ∧
    (fail_stamp t error_message now).failed_at = some now ∧
    (fail_task s task_file error_message now).fs.active.lookup task_file
      = none := by
  by_cases hb : t.retry_count.getD 0 + 1 < t.max_retries.getD 3
  · refine ⟨⟨rfl, Nat.lt_succ_self _⟩, fun _ => ?_, fun hc => absurd hb (by omega),
      rfl, rfl, ?_⟩
    · simp only [fail_task, h, fail_task_route, fail_stamp, Option.getD_some]
      rw [if_pos hb]
      exact ⟨lookup_save_self _ _ _, rfl⟩
    · simp only [fail_task, h, fail_task_route, fail_stamp, Option.getD_some]
      rw [if_pos hb]
      exact lookup_remove_self _ _
  · refine ⟨⟨rfl, Nat.lt_succ_self _⟩, fun hc => absurd hc hb, fun _ => ?_,
      rfl, rfl, ?_⟩
    · simp only [fail_task, h, fail_task_route, fail_stamp, Option.getD_some]
      rw [if_neg hb]
      exact ⟨lookup_save_self _ _ _, rfl⟩
    · simp only [fail_task, h, fail_task_route, fail_stamp, Option.getD_some]
      rw [if_neg hb]
      exact lookup_remove_self _ _

/-- C3: when a claimed task fails, `fail_task` increments `retry_count` by
one; the stamped record is re-injected into `pending` iff the incremented
count is strictly below `max_retries` (default 3), and otherwise lands in
`failed` with `error` and `failed_at` set; in both cases the record leaves
`active`.  The increment makes `retry_count` strictly grow on every failure,
so the task reaches `failed` exactly when the incremented count has reached
`max_retries`. -/
theorem fail_task_retry_policy (s : AgentState)
    (task_file error_message now : String) (t : Task)
    (h : s.fs.active.lookup task_file = some t) :
    ((fail_stamp t error_message now).retry_count
        = some (t.retry_count.getD 0 + 1) ∧
      t.retry_count.getD 0 < t.retry_count.getD 0 + 1) ∧
    (t.retry_count.getD 0 + 1 < t.max_retries.getD 3 →
      (fail_task s task_file error_message now).fs.pending.lookup
          ("retry_" ++ task_file) = some (fail_stamp t error_message now) ∧
      (fail_task s task_file error_message now).fs.failed = s.fs.failed) ∧
    (t.max_retries.getD 3 ≤ t.retry_count.getD 0 + 1 →
      (fail_task s task_file error_message now).fs.failed.lookup task_file
          = some (fail_stamp t error_message now) ∧
      (fail_task s task_file error_message now).fs.pending = s.fs.pending) ∧
    (fail_stamp t error_message now).error = some error_message ∧
    (fail_stamp t error_message now).failed_at = some now ∧
    (fail_task s task_file error_message now).fs.active.lookup task_file
      = none :=
  fail_task_spec s task_file error_message now t h

/-- Witness for C3 at a concrete input: third failure of a task with
`retry_count = 2` and default `max_retries` lands it permanently in
`failed/` with `retry_count = 3`. -/
theorem fail_task_retry_policy_witness :
    (fail_task
        { agent_id := "agentA",
          fs := { active := [("agentA_T3.json",
            { id := "T3", retry_count := some 2 : Task })] } }
        "agentA_T3.json" "executor raised" "t1").fs.failed.lookup
        "agentA_T3.json"
      = some (fail_stamp { id := "T3", retry_count := some 2 : Task }
          "executor raised" "t1") ∧
    (fail_stamp { id := "T3", retry_count := some 2 : Task }
        "executor raised" "t1").retry_count = some 3 := by
  have h := fail_task_retry_policy
    { agent_id := "agentA",
      fs := { active := [("agentA_T3.json",
        { id := "T3", retry_count := some 2 : Task })] } }
    "agentA_T3.json" "executor raised" "t1"
    { id := "T3", retry_count := some 2 : Task } (by decide)
  exact ⟨(h.2.2.1 (by decide)).1, h.1.1⟩

/-! ## C4: retry re-injection keeps the task id -/

/-- C4 counterexample: the re-injected pending record does NOT carry a fresh
id — at this concrete input the failed attempt has id `"T3"` and the record
re-injected into `pending/` still has id `"T3"` (only the *filename* is new:
`retry_agentA_T3.json`). -/
theorem retry_reinjection_keeps_id :
    ((fail_task
        { agent_id := "agentA",
          fs := { active := [("agentA_T3.json",
            { id := "T3", description := "do work", retry_count := some 0 : Task })] } }
        "agentA_T3.json" "executor raised" "t1").fs.pending.lookup
        "retry_agentA_T3.json").map Task.id = some "T3" := by
  decide

/-- C4 (amended): for a failed task with retries remaining, the re-injection
writes the stamped record into `pending/` under the new *filename*
`retry_<active-basename>`, with `retry_count` incremented and the same
`description` and context — but the record's `id` field is unchanged: no
fresh task id is generated. -/
theorem retry_reinjection_preserves_payload (s : AgentState)
    (task_file error_message now : String) (t : Task)
    (h : s.fs.active.lookup task_file = some t)
    (hr : t.retry_count.getD 0 + 1 < t.max_retries.getD 3) :
    (fail_task s task_file error_message now).fs.pending.lookup
        ("retry_" ++ task_file) = some (fail_stamp t error_message now) ∧
    (fail_stamp t error_message now).id = t.id ∧
    (fail_stamp t error_message now).description = t.description ∧
    (fail_stamp t error_message now).original_goal = t.original_goal ∧
    (fail_stamp t error_message now).context_extra = t.context_extra ∧
    (fail_stamp t error_message now).retry_count
      = some (t.retry_count.getD 0 + 1) :=
  ⟨((fail_task_spec s task_file error_message now t h).2.1 hr).1,
    rfl, rfl, rfl, rfl, rfl⟩

/-! ## Resolution lemmas shared by several claims -/

theorem update_task_heartbeat_spec (s : AgentState) (task_file now : String)
    (t : Task) (h : s.fs.active.lookup task_file = some t) :
    (update_task_heartbeat s task_file now).fs.active.lookup task_file
        = some (hb_stamp t now) ∧
    (update_task_heartbeat s task_file now).fs.pending = s.fs.pending ∧
    (update_task_heartbeat s task_file now).fs.completed = s.fs.completed ∧
    (update_task_heartbeat s task_file now).fs.failed = s.fs.failed := by
  simp only [update_task_heartbeat, h]
  exact ⟨lookup_save_self _ _ _, trivial, trivial, trivial⟩

theorem complete_task_spec (s : AgentState) (task_file result now : String)
    (t : Task) (h : s.fs.active.lookup task_file = some t) :
    (complete_task s task_file result now).fs.completed.lookup task_file
        = some (complete_stamp t result now) ∧
    (complete_task s task_file result now).fs.active.lookup task_file = none ∧
    (complete_task s task_file result now).fs.pending = s.fs.pending ∧
    (complete_task s task_file result now).fs.failed = s.fs.failed := by
  simp only [complete_task, h, complete_task_finish, complete_task_save]
  exact ⟨lookup_save_self _ _ _, lookup_remove_self _ _, trivial, trivial⟩

/-! ## C6: absent original goal ⇒ validation passes, task completes -/

/-- C6: for a claimed task whose `context.original_goal` is absent (missing
or empty), `validates_goal_progress` returns `True` regardless of the
validator oracle's answer, and `process_task` with any executor result
resolves the task into `completed` — `pending` and `failed` are untouched
(no routing to the retry/fail path on validation grounds). -/
theorem absent_goal_completes (s : AgentState)
    (task_file exec_result now : String) (t : Task)
    (validator : Except String String)
    (h : s.fs.active.lookup task_file = some t)
    (hg : goal_absent t = true) :
    validates_goal_progress t exec_result validator = true ∧
    (process_task s task_file (Except.ok exec_result) validator now).fs.completed.lookup
        task_file = some (complete_stamp (hb_stamp t now) exec_result now) ∧
    (process_task s task_file (Except.ok exec_result) validator now).fs.active.lookup
        task_file = none ∧
    (process_task s task_file (Except.ok exec_result) validator now).fs.pending
      = s.fs.pending ∧
    (process_task s task_file (Except.ok exec_result) validator now).fs.failed
      = s.fs.failed := by
  have hv : validates_goal_progress t exec_result validator = true := by
    simp [validates_goal_progress, hg]
  have hhb := update_task_heartbeat_spec s task_file now t h
  have hcc := complete_task_spec (update_task_heartbeat s task_file now)
    task_file exec_result now (hb_stamp t now) hhb.1
  refine ⟨hv, ?_, ?_, ?_, ?_⟩ <;>
    simp only [process_task, h, hv, if_true] <;>
    [exact hcc.1; exact hcc.2.1; exact hcc.2.2.1.trans hhb.2.1;
     exact hcc.2.2.2.trans hhb.2.2.2]

/-- Witness for C6 at a concrete input: a task with no `original_goal`
completes even though the validator answers "NO". -/
theorem absent_goal_completes_witness :
    validates_goal_progress { id := "T4" : Task } "anything"
        (Except.ok "NO") = true ∧
    (process_task
        { agent_id := "agentA",
          fs := { active := [("agentA_T4.json", { id := "T4" : Task })] } }
        "agentA_T4.json" (Except.ok "anything") (Except.ok "NO")
        "t1").fs.completed.lookup "agentA_T4.json"
      = some (complete_stamp (hb_stamp { id := "T4" : Task } "t1")
          "anything" "t1") := by
  have h := absent_goal_completes
    { agent_id := "agentA",
      fs := { active := [("agentA_T4.json", { id := "T4" : Task })] } }
    "agentA_T4.json" "anything" "t1" { id := "T4" : Task }
    (Except.ok "NO") (by decide) (by decide)
  exact ⟨h.1, h.2.1⟩

/-! ## C9: an error inside validation defaults to acceptance -/

/-- C9: if the goal-validation oracle raises, `validates_goal_progress`'s
exception handler returns `True`, so `process_task` resolves the task into
`completed` exactly as if validation had passed — a validation error is
never routed to the retry/fail path and never aborts task processing. -/
theorem validation_error_accepts (s : AgentState)
    (task_file exec_result now e : String) (t : Task)
    (h : s.fs.active.lookup task_file = some t) :
    validates_goal_progress t exec_result (Except.error e) = true ∧
    (process_task s task_file (Except.ok exec_result) (Except.error e)
        now).fs.completed.lookup task_file
      = some (complete_stamp (hb_stamp t now) exec_result now) ∧
    (process_task s task_file (Except.ok exec_result) (Except.error e)
        now).fs.active.lookup task_file = none ∧
    (process_task s task_file (Except.ok exec_result) (Except.error e)
        now).fs.pending = s.fs.pending ∧
    (process_task s task_file (Except.ok exec_result) (Except.error e)
        now).fs.failed = s.fs.failed := by
  have hv : validates_goal_progress t exec_result (Except.error e) = true := by
    cases hg : goal_absent t <;> simp [validates_goal_progress, hg]
  have hhb := update_task_heartbeat_spec s task_file now t h
  have hcc := complete_task_spec (update_task_heartbeat s task_file now)
    task_file exec_result now (hb_stamp t now) hhb.1
  refine ⟨hv, ?_, ?_, ?_, ?_⟩ <;>
    simp only [process_task, h, hv, if_true] <;>
    [exact hcc.1; exact hcc.2.1; exact hcc.2.2.1.trans hhb.2.1;
     exact hcc.2.2.2.trans hhb.2.2.2]

/-- Witness for C9 at a concrete input: the validator raises on a task that
HAS an original goal, and the task still lands in `completed`. -/
theorem validation_error_accepts_witness :
    validates_goal_progress
        { id := "T5", original_goal := some "the goal" : Task } "res"
        (Except.error "LLM call failed") = true ∧
    (process_task
        { agent_id := "agentA",
          fs := { active := [("agentA_T5.json",
            { id := "T5", original_goal := some "the goal" : Task })] } }
        "agentA_T5.json" (Except.ok "res") (Except.error "LLM call failed")
        "t1").fs.failed = ({} : FS).failed := by
  have h := validation_error_accepts
    { agent_id := "agentA",
      fs := { active := [("agentA_T5.json",
        { id := "T5", original_goal := some "the goal" : Task })] } }
    "agentA_T5.json" "res" "t1" "LLM call failed"
    { id := "T5", original_goal := some "the goal" : Task } (by decide)
  exact ⟨h.1, h.2.2.2.2⟩

/-! ## C7: the completed file is NOT named by the task id alone -/

/-- C7 counterexample: at this concrete input the agent claimed the pending
file `T1.json` (active basename `agentA_T1.json`, per `claim_task`) and
completed it; the completed directory then holds `agentA_T1.json` and NO
file named `T1.json`, yet a dependency on `"T1"` is already satisfied —
refuting both "the completed file is named by the task id alone" and
"a dependency on T1 becomes satisfiable exactly when a file named `T1.json`
appears under completed". -/
theorem completed_file_not_named_by_id :
    (complete_task
        { agent_id := "agentA",
          fs := { active := [("agentA_T1.json", { id := "T1" : Task })] } }
        "agentA_T1.json" "res" "t1").fs.completed.lookup "T1.json" = none ∧
    (complete_task
        { agent_id := "agentA",
          fs := { active := [("agentA_T1.json", { id := "T1" : Task })] } }
        "agentA_T1.json" "res" "t1").fs.completed.lookup "agentA_T1.json"
      = some (complete_stamp { id := "T1" : Task } "res" "t1") ∧
    dependencies_satisfied
      (complete_task
        { agent_id := "agentA",
          fs := { active := [("agentA_T1.json", { id := "T1" : Task })] } }
        "agentA_T1.json" "res" "t1").fs
      { id := "T2", dependencies := ["T1"] : Task } = true := by
  refine ⟨?_, ?_, ?_⟩ <;> decide

/-- C7 (amended): `complete_task` persists the record under the basename of
the ACTIVE file (i.e. `<agent-id>_<task-id>.json`), not `<task-id>.json`;
no file under any other name appears in `completed/`.  A dependency on the
task's id is nevertheless satisfied afterwards, because
`dependencies_satisfied` matches dependency ids against the `id` *field* of
every completed record, not against filenames. -/
theorem complete_task_layout (s : AgentState) (task_file result now : String)
    (t : Task) (d : Task)
    (h : s.fs.active.lookup task_file = some t)
    (hd : d.dependencies = [t.id]) :
    (complete_task s task_file result now).fs.completed.lookup task_file
        = some (complete_stamp t result now) ∧
    (∀ other : String, other ≠ task_file →
      (complete_task s task_file result now).fs.completed.lookup other
        = s.fs.completed.lookup other) ∧
    dependencies_satisfied (complete_task s task_file result now).fs d
      = true := by
  refine ⟨(complete_task_spec s task_file result now t h).1, ?_, ?_⟩
  · intro other hother
    simp only [complete_task, h, complete_task_finish, complete_task_save]
    exact lookup_save_ne _ _ _ _ hother
  · simp only [complete_task, h, complete_task_finish, complete_task_save,
      dependencies_satisfied, hd, completed_ids, saveFile, complete_stamp]
    simp [List.contains]

/-- Witness for the amended C7 at a concrete input. -/
theorem complete_task_layout_witness :
    (complete_task
        { agent_id := "agentB",
          fs := { active := [("agentB_T9.json", { id := "T9" : Task })] } }
        "agentB_T9.json" "res" "t1").fs.completed.lookup "agentB_T9.json"
      = some (complete_stamp { id := "T9" : Task } "res" "t1") ∧
    dependencies_satisfied
      (complete_task
        { agent_id := "agentB",
          fs := { active := [("agentB_T9.json", { id := "T9" : Task })] } }
        "agentB_T9.json" "res" "t1").fs
      { id := "TA", dependencies := ["T9"] : Task } = true := by
  have h := complete_task_layout
    { agent_id := "agentB",
      fs := { active := [("agentB_T9.json", { id := "T9" : Task })] } }
    "agentB_T9.json" "res" "t1" { id := "T9" : Task }
    { id := "TA", dependencies := ["T9"] : Task } (by decide) (by decide)
  exact ⟨h.1, h.2.2⟩

/-- Witness for the amended C4 at a concrete input. -/
theorem retry_reinjection_preserves_payload_witness :
    (fail_task
        { agent_id := "agentA",
          fs := { active := [("agentA_T3.json",
            { id := "T3", description := "do work",
              retry_count := some 0 : Task })] } }
        "agentA_T3.json" "executor raised" "t1").fs.pending.lookup
        "retry_agentA_T3.json"
      = some (fail_stamp
          { id := "T3", description := "do work", retry_count := some 0 : Task }
          "executor raised" "t1") := by
  have h := retry_reinjection_preserves_payload
    { agent_id := "agentA",
      fs := { active := [("agentA_T3.json",
        { id := "T3", description := "do work", retry_count := some 0 : Task })] } }
    "agentA_T3.json" "executor raised" "t1"
    { id := "T3", description := "do work", retry_count := some 0 : Task }
    (by decide) (by decide)
  exact h.1

/-! ## C10: a `None` return from `claim_task` can leave mutations behind -/

/-- C10: if the rename succeeds but the subsequent load/save that stamps
`claimed_by`/`claimed_at` raises `OSError`, `claim_task` returns `None`
even though the pending file has already been moved into `active` and the
claimed path appended to the in-memory `active_tasks` list — so the task
occupies the active directory and one slot of the concurrency cap (once the
list reaches `max_concurrent_tasks`, `should_handle` refuses every task)
while this agent will never process it. -/
theorem claim_none_can_mutate (s : AgentState) (task_file now : String)
    (t : Task) (h : s.fs.pending.lookup task_file = some t) :
    (claim_task s task_file now true).1 = none ∧
    (claim_task s task_file now true).2.fs.active.lookup
        (s.agent_id ++ "_" ++ task_file) = some t ∧
    (claim_task s task_file now true).2.fs.pending.lookup task_file = none ∧
    (claim_task s task_file now true).2.active_tasks
      = s.active_tasks ++ [s.agent_id ++ "_" ++ task_file] ∧
    (claim_task s task_file now true).2.active_tasks.length
      = s.active_tasks.length + 1 ∧
    (∀ (t2 : Task) (rp ey : Bool) (fit th : Nat),
      (claim_task s task_file now true).2.max_concurrent_tasks ≤
          (claim_task s task_file now true).2.active_tasks.length →
      should_handle (claim_task s task_file now true).2 t2 rp ey fit th
        = false) := by
  have hone : claim_task s task_file now true = (none,
      { s with
        fs := { s.fs with
          pending := removeFile s.fs.pending task_file,
          active := saveFile s.fs.active (s.agent_id ++ "_" ++ task_file) t },
        active_tasks := s.active_tasks ++ [s.agent_id ++ "_" ++ task_file] }) := by
    simp [claim_task, h]
  rw [hone]
  refine ⟨rfl, lookup_save_self _ _ _, lookup_remove_self _ _, rfl, by simp,
    ?_⟩
  intro t2 rp ey fit th hcap
  simp only [should_handle]
  rw [if_pos hcap]

/-- Witness for C10 at a concrete input. -/
theorem claim_none_can_mutate_witness :
    (claim_task
        { agent_id := "agentA", max_concurrent_tasks := 1,
          fs := { pending := [("T1.json", { id := "T1" : Task })] } }
        "T1.json" "t1" true).1 = none ∧
    (claim_task
        { agent_id := "agentA", max_concurrent_tasks := 1,
          fs := { pending := [("T1.json", { id := "T1" : Task })] } }
        "T1.json" "t1" true).2.fs.active.lookup "agentA_T1.json"
      = some { id := "T1" : Task } ∧
    should_handle
      (claim_task
        { agent_id := "agentA", max_concurrent_tasks := 1,
          fs := { pending := [("T1.json", { id := "T1" : Task })] } }
        "T1.json" "t1" true).2
      { id := "T2" : Task } true true 10 5 = false := by
  have h := claim_none_can_mutate
    { agent_id := "agentA", max_concurrent_tasks := 1,
      fs := { pending := [("T1.json", { id := "T1" : Task })] } }
    "T1.json" "t1" { id := "T1" : Task } (by decide)
  exact ⟨h.1, h.2.1, h.2.2.2.2.2 { id := "T2" : Task } true true 10 5 (by decide)⟩

/-! ## C2: resolution is *not* windowless -/

/-- C2 counterexample: `complete_task` writes the completed file first and
removes the active file afterwards (`save_task` + `os.remove`, not an atomic
rename), so between the two syscalls the record is visible in TWO stage
directories at once.  At this concrete input the intermediate state after
`complete_task_save` (the exact filesystem state an external reader can
observe between `complete_task`'s two filesystem operations) has the record
in both `active/` and `completed/`. -/
theorem resolution_two_directory_window :
    stage_count
      (complete_task_save
        { agent_id := "agentA",
          fs := { active := [("agentA_T1.json", { id := "T1" : Task })] } }
        "agentA_T1.json" { id := "T1" : Task } "res" "t1").fs
      "agentA_T1.json" = 2 := by
  decide

/-- C2 (amended): the pending→active claim transition is a single atomic
rename, but the resolution operations `complete_task` and `fail_task` write
the destination file first and remove the active file afterwards, so there
IS a window in which the record is visible in two stage directories; there
is never a window in which it is visible in none, and the final state holds
it in exactly one. -/
theorem resolution_window_amended (s : AgentState)
    (task_file result err now : String) (t : Task)
    (h : s.fs.active.lookup task_file = some t)
    (hp : s.fs.pending.lookup task_file = none)
    (hc : s.fs.completed.lookup task_file = none)
    (hf : s.fs.failed.lookup task_file = none) :
    stage_count (complete_task_save s task_file t result now).fs task_file
      = 2 ∧
    stage_count (complete_task s task_file result now).fs task_file = 1 ∧
    (t.max_retries.getD 3 ≤ t.retry_count.getD 0 + 1 →
      stage_count
          (fail_task_route s task_file (fail_stamp t err now)).fs task_file
        = 2 ∧
      stage_count (fail_task s task_file err now).fs task_file = 1) ∧
    (t.retry_count.getD 0 + 1 < t.max_retries.getD 3 →
      ((fail_task_route s task_file
          (fail_stamp t err now)).fs.active.lookup task_file).isSome ∧
      ((fail_task_route s task_file
          (fail_stamp t err now)).fs.pending.lookup
          ("retry_" ++ task_file)).isSome ∧
      (fail_task s task_file err now).fs.active.lookup task_file = none ∧
      ((fail_task s task_file err now).fs.pending.lookup
          ("retry_" ++ task_file)).isSome) := by
  have hcs : (fail_stamp t err now).retry_count.getD 0
      = t.retry_count.getD 0 + 1 := rfl
  have hcm : (fail_stamp t err now).max_retries = t.max_retries := rfl
  refine ⟨?_, ?_, fun hexh => ⟨?_, ?_⟩, fun hrem => ⟨?_, ?_, ?_, ?_⟩⟩
  · simp [stage_count, complete_task_save, hp, h, hf,
      lookup_save_self]
  · simp [stage_count, complete_task, h, complete_task_finish,
      complete_task_save, hp, hf, lookup_save_self, lookup_remove_self]
  · have hb : ¬ (fail_stamp t err now).retry_count.getD 0 <
        (fail_stamp t err now).max_retries.getD 3 := by
      rw [hcs, hcm]; omega
    simp [stage_count, fail_task_route, hb, h, hp, hc, lookup_save_self]
  · have hsp := fail_task_spec s task_file err now t h
    have hex := hsp.2.2.1 hexh
    have hcompl : (fail_task s task_file err now).fs.completed
        = s.fs.completed := by
      simp only [fail_task, h, fail_task_route]
      split <;> rfl
    simp [stage_count, hex.1, hex.2, hcompl, hc, hp,
      hsp.2.2.2.2.2]
  · have hb : (fail_stamp t err now).retry_count.getD 0 <
        (fail_stamp t err now).max_retries.getD 3 := by
      rw [hcs, hcm]; exact hrem
    simp [fail_task_route, hb, h]
  · have hb : (fail_stamp t err now).retry_count.getD 0 <
        (fail_stamp t err now).max_retries.getD 3 := by
      rw [hcs, hcm]; exact hrem
    simp [fail_task_route, hb, lookup_save_self]
  · simp only [fail_task, h]
    exact lookup_remove_self _ _
  · have hsp := fail_task_spec s task_file err now t h
    rw [(hsp.2.1 hrem).1]
    rfl

/-- Witness for the amended C2 at a concrete input (retries exhausted
branch exercised). -/
theorem resolution_window_amended_witness :
    stage_count
      (complete_task_save
        { agent_id := "agentA",
          fs := { active := [("agentA_T1.json", { id := "T1" : Task })] } }
        "agentA_T1.json" { id := "T1" : Task } "res" "t1").fs
      "agentA_T1.json" = 2 ∧
    stage_count
      (complete_task
        { agent_id := "agentA",
          fs := { active := [("agentA_T1.json", { id := "T1" : Task })] } }
        "agentA_T1.json" "res" "t1").fs "agentA_T1.json" = 1 := by
  have h := resolution_window_amended
    { agent_id := "agentA",
      fs := { active := [("agentA_T1.json", { id := "T1" : Task })] } }
    "agentA_T1.json" "res" "err" "t1" { id := "T1" : Task }
    (by decide) (by decide) (by decide) (by decide)
  exact ⟨h.1, h.2.1⟩

/-! ## C5: dependency gating precedes admission and claiming -/

theorem claim_task_completed_eq (s : AgentState) (f now : String) (b : Bool) :
    (claim_task s f now b).2.fs.completed = s.fs.completed := by
  rcases h : s.fs.pending.lookup f with _ | t
  · simp [claim_task, h]
  · simp only [claim_task, h]
    cases b <;> rfl

theorem dependencies_satisfied_congr (fs fs' : FS) (t : Task)
    (h : fs.completed = fs'.completed) :
    dependencies_satisfied fs t = dependencies_satisfied fs' t := by
  simp [dependencies_satisfied, completed_ids, h]

/-- Every file on which the monitor loop attempts a claim comes from the
pending snapshot and had its dependencies satisfied (w.r.t. the completed
set, which no claim attempt of this pass modifies). -/
theorem monitor_go_attempts_spec (dh : AgentState → Task → Bool)
    (now : String) (l : List (String × Task)) (s0 s : AgentState)
    (hcomp : s.fs.completed = s0.fs.completed) :
    ∀ f ∈ (monitor_go dh now l s).1, ∃ t, (f, t) ∈ l ∧
      dependencies_satisfied s0.fs t = true := by
  induction l generalizing s with
  | nil => intro f hf; simp [monitor_go] at hf
  | cons p rest ih =>
      obtain ⟨task_file, task⟩ := p
      intro f hf
      by_cases hdep : dependencies_satisfied s.fs task = true
      · by_cases hdh : dh s task = true
        · rcases hcl : claim_task s task_file now false with ⟨ret, s'⟩
          cases ret with
          | some c =>
              simp only [monitor_go, hdep, if_true, hdh, hcl] at hf
              simp only [not_true, if_false, List.mem_singleton] at hf
              subst hf
              exact ⟨task, List.mem_cons_self _ _,
                (dependencies_satisfied_congr s0.fs s.fs task
                  hcomp.symm).symm ▸ hdep⟩
          | none =>
              simp only [monitor_go, hdep, not_true, if_false, hdh, if_true,
                hcl, List.mem_cons] at hf
              rcases hf with rfl | hf
              · exact ⟨task, List.mem_cons_self _ _,
                  (dependencies_satisfied_congr s0.fs s.fs task
                    hcomp.symm).symm ▸ hdep⟩
              · have hcomp' : s'.fs.completed = s0.fs.completed := by
                  have := claim_task_completed_eq s task_file now false
                  rw [hcl] at this
                  exact this.trans hcomp
                obtain ⟨t, htl, htd⟩ := ih s' hcomp' f hf
                exact ⟨t, List.mem_cons_of_mem _ htl, htd⟩
        · simp only [monitor_go, hdep, not_true, if_false, hdh] at hf
          obtain ⟨t, htl, htd⟩ := ih s hcomp f hf
          exact ⟨t, List.mem_cons_of_mem _ htl, htd⟩
      · simp only [monitor_go, hdep, if_pos, not_false_iff, if_true] at hf
        obtain ⟨t, htl, htd⟩ := ih s hcomp f hf
        exact ⟨t, List.mem_cons_of_mem _ htl, htd⟩

/-- C5: within a polling pass, an agent never attempts to claim a task whose
dependencies are not all present in the completed set: every claim attempt
is on a task from the pending snapshot whose `dependencies` all appear among
the `id` fields collected by re-scanning the completed directory, and the
dependency check precedes the admission decision and the claim attempt in
`monitor_go`. -/
theorem monitor_dependency_gating (dh : AgentState → Task → Bool)
    (now : String) (s : AgentState) :
    ∀ f ∈ (monitor_pass dh now s).1, ∃ t, (f, t) ∈ s.fs.pending ∧
      dependencies_satisfied s.fs t = true :=
  monitor_go_attempts_spec dh now s.fs.pending s s rfl

/-- Witness for C5 at a concrete input: with `T1` completed, a pass claims
`T2` (which depends on `T1`), and the theorem instantiates at that attempt. -/
theorem monitor_dependency_gating_witness :
    ∃ t, ("T2.json", t) ∈
        ({ agent_id := "agentA",
           fs := { pending := [("T2.json",
                     { id := "T2", dependencies := ["T1"] : Task })],
                   completed := [("x_T1.json", { id := "T1" : Task })] } }
          : AgentState).fs.pending ∧
      dependencies_satisfied
        ({ agent_id := "agentA",
           fs := { pending := [("T2.json",
                     { id := "T2", dependencies := ["T1"] : Task })],
                   completed := [("x_T1.json", { id := "T1" : Task })] } }
          : AgentState).fs t = true :=
  monitor_dependency_gating (fun _ _ => true) "t1"
    { agent_id := "agentA",
      fs := { pending := [("T2.json",
                { id := "T2", dependencies := ["T1"] : Task })],
              completed := [("x_T1.json", { id := "T1" : Task })] } }
    "T2.json" (by decide)

/-! ## C1: mutual exclusion of racing claims -/

theorem claim_step_pending_none (agent task_file now : String) (pc : ClaimPC)
    (lo : List String) (fs : FS)
    (h : fs.pending.lookup task_file = none) :
    (claim_step agent task_file now pc lo fs).2.2.pending.lookup task_file
      = none := by
  cases pc with
  | start => simp [claim_step, h]
  | stamp =>
      simp only [claim_step]
      rcases ha : fs.active.lookup (agent ++ "_" ++ task_file) with _ | t <;>
        simp [h]
  | done r => exact h

theorem race_step_inv (task_file now a1 a2 : String) (choice : Bool)
    (c : RaceConf) (h : race_inv task_file c) :
    race_inv task_file (race_step task_file now a1 a2 choice c) := by
  obtain ⟨pc1, pc2, l1, l2, fs⟩ := c
  obtain ⟨h1, h2⟩ := h
  cases choice
  · -- agent 2 steps
    cases pc2 with
    | start =>
        rcases hl : fs.pending.lookup task_file with _ | t
        · have hstep : race_step task_file now a1 a2 false
              ⟨pc1, ClaimPC.start, l1, l2, fs⟩
              = ⟨pc1, ClaimPC.done none, l1, l2, fs⟩ := by
            simp [race_step, claim_step, hl]
          rw [hstep]
          refine ⟨fun hw => ?_, fun hw => ?_⟩
          · exact h1 (Or.inl (hw.resolve_right (by simp [claim_winner])))
          · exact absurd hw.2 (by simp [claim_winner])
        · have hw1 : claim_winner pc1 = false := by
            by_contra hcw
            rw [h1 (Or.inl (by revert hcw; cases claim_winner pc1 <;> simp))]
              at hl
            exact Option.noConfusion hl
          have hstep : race_step task_file now a1 a2 false
              ⟨pc1, ClaimPC.start, l1, l2, fs⟩
              = ⟨pc1, ClaimPC.stamp, l1, l2 ++ [a2 ++ "_" ++ task_file],
                 { fs with
                     pending := removeFile fs.pending task_file,
                     active := saveFile fs.active (a2 ++ "_" ++ task_file) t }⟩ := by
            simp [race_step, claim_step, hl]
          rw [hstep]
          refine ⟨fun _ => lookup_remove_self _ _, fun hw => ?_⟩
          rw [hw1] at hw
          exact Bool.noConfusion hw.1
    | stamp =>
        have hl : fs.pending.lookup task_file = none := h1 (Or.inr rfl)
        have hw1 : claim_winner pc1 = false := by
          by_contra hcw
          exact h2 ⟨by revert hcw; cases claim_winner pc1 <;> simp, rfl⟩
        rcases ha : fs.active.lookup (a2 ++ "_" ++ task_file) with _ | t
        · have hstep : race_step task_file now a1 a2 false
              ⟨pc1, ClaimPC.stamp, l1, l2, fs⟩
              = ⟨pc1, ClaimPC.done none, l1, l2, fs⟩ := by
            simp [race_step, claim_step, ha]
          rw [hstep]
          refine ⟨fun _ => hl, fun hw => ?_⟩
          exact absurd hw.2 (by simp [claim_winner])
        · have hstep : race_step task_file now a1 a2 false
              ⟨pc1, ClaimPC.stamp, l1, l2, fs⟩
              = ⟨pc1, ClaimPC.done (some (a2 ++ "_" ++ task_file)), l1, l2,
                 { fs with
                     active := saveFile fs.active (a2 ++ "_" ++ task_file)
                       { t with claimed_by := some a2, claimed_at := some now } }⟩ := by
            simp [race_step, claim_step, ha]
          rw [hstep]
          refine ⟨fun _ => hl, fun hw => ?_⟩
          rw [hw1] at hw
          exact Bool.noConfusion hw.1
    | done r =>
        have hstep : race_step task_file now a1 a2 false
            ⟨pc1, ClaimPC.done r, l1, l2, fs⟩
            = ⟨pc1, ClaimPC.done r, l1, l2, fs⟩ := by
          simp [race_step, claim_step]
        rw [hstep]
        exact ⟨h1, h2⟩
  · -- agent 1 steps
    cases pc1 with
    | start =>
        rcases hl : fs.pending.lookup task_file with _ | t
        · have hstep : race_step task_file now a1 a2 true
              ⟨ClaimPC.start, pc2, l1, l2, fs⟩
              = ⟨ClaimPC.done none, pc2, l1, l2, fs⟩ := by
            simp [race_step, claim_step, hl]
          rw [hstep]
          refine ⟨fun hw => ?_, fun hw => ?_⟩
          · exact h1 (Or.inr (hw.resolve_left (by simp [claim_winner])))
          · exact absurd hw.1 (by simp [claim_winner])
        · have hw2 : claim_winner pc2 = false := by
            by_contra hcw
            rw [h1 (Or.inr (by revert hcw; cases claim_winner pc2 <;> simp))]
              at hl
            exact Option.noConfusion hl
          have hstep : race_step task_file now a1 a2 true
              ⟨ClaimPC.start, pc2, l1, l2, fs⟩
              = ⟨ClaimPC.stamp, pc2, l1 ++ [a1 ++ "_" ++ task_file], l2,
                 { fs with
                     pending := removeFile fs.pending task_file,
                     active := saveFile fs.active (a1 ++ "_" ++ task_file) t }⟩ := by
            simp [race_step, claim_step, hl]
          rw [hstep]
          refine ⟨fun _ => lookup_remove_self _ _, fun hw => ?_⟩
          rw [hw2] at hw
          exact Bool.noConfusion hw.2
    | stamp =>
        have hl : fs.pending.lookup task_file = none := h1 (Or.inl rfl)
        have hw2 : claim_winner pc2 = false := by
          by_contra hcw
          exact h2 ⟨rfl, by revert hcw; cases claim_winner pc2 <;> simp⟩
        rcases ha : fs.active.lookup (a1 ++ "_" ++ task_file) with _ | t
        · have hstep : race_step task_file now a1 a2 true
              ⟨ClaimPC.stamp, pc2, l1, l2, fs⟩
              = ⟨ClaimPC.done none, pc2, l1, l2, fs⟩ := by
            simp [race_step, claim_step, ha]
          rw [hstep]
          refine ⟨fun _ => hl, fun hw => ?_⟩
          exact absurd hw.1 (by simp [claim_winner])
        · have hstep : race_step task_file now a1 a2 true
              ⟨ClaimPC.stamp, pc2, l1, l2, fs⟩
              = ⟨ClaimPC.done (some (a1 ++ "_" ++ task_file)), pc2, l1, l2,
                 { fs with
                     active := saveFile fs.active (a1 ++ "_" ++ task_file)
                       { t with claimed_by := some a1, claimed_at := some now } }⟩ := by
            simp [race_step, claim_step, ha]
          rw [hstep]
          refine ⟨fun _ => hl, fun hw => ?_⟩
          rw [hw2] at hw
          exact Bool.noConfusion hw.2
    | done r =>
        have hstep : race_step task_file now a1 a2 true
            ⟨ClaimPC.done r, pc2, l1, l2, fs⟩
            = ⟨ClaimPC.done r, pc2, l1, l2, fs⟩ := by
          simp [race_step, claim_step]
        rw [hstep]
        exact ⟨h1, h2⟩

theorem race_run_inv (task_file now a1 a2 : String) (choices : List Bool)
    (c : RaceConf) (h : race_inv task_file c) :
    race_inv task_file (race_run task_file now a1 a2 choices c) := by
  induction choices generalizing c with
  | nil => exact h
  | cons b bs ih =>
      exact ih _ (race_step_inv task_file now a1 a2 b c h)

/-- Running one agent's two atomic events back-to-back (no interference)
reproduces `claim_task` exactly — the race model and the sequential function
agree. -/
theorem claim_steps_eq_claim_task (s : AgentState) (task_file now : String) :
    (let r1 := claim_step s.agent_id task_file now ClaimPC.start
        s.active_tasks s.fs
     let r2 := claim_step s.agent_id task_file now r1.1 r1.2.1 r1.2.2
     (r2.1, r2.2.1, r2.2.2)) =
    (ClaimPC.done (claim_task s task_file now false).1,
     (claim_task s task_file now false).2.active_tasks,
     (claim_task s task_file now false).2.fs) := by
  rcases h : s.fs.pending.lookup task_file with _ | t
  · simp [claim_step, claim_task, h]
  · simp [claim_step, claim_task, h, lookup_save_self]

/-- C1: for any two agents racing to claim the same pending task, under
every interleaving of their atomic filesystem events at most one of the two
`claim_task` calls succeeds.  A call whose rename finds the pending file
gone performs no state mutation at all and returns `None` (both at the
event level and for the whole `claim_task` call), and the monitor loop then
simply continues scanning the remaining pending tasks.  The only
mutual-exclusion mechanism involved is the atomicity of the rename: the
committed rename removes the pending file, which makes the other rename
fail. -/
theorem claim_race_mutual_exclusion (task_file now a1 a2 : String)
    (lo1 lo2 : List String) (fs0 : FS) (choices : List Bool) :
    (¬ (claim_winner (race_run task_file now a1 a2 choices
          { pc1 := ClaimPC.start, pc2 := ClaimPC.start,
            local1 := lo1, local2 := lo2, fs := fs0 }).pc1 = true ∧
        claim_winner (race_run task_file now a1 a2 choices
          { pc1 := ClaimPC.start, pc2 := ClaimPC.start,
            local1 := lo1, local2 := lo2, fs := fs0 }).pc2 = true)) ∧
    (∀ (agent : String) (lo : List String) (fs : FS),
      fs.pending.lookup task_file = none →
      claim_step agent task_file now ClaimPC.start lo fs
        = (ClaimPC.done none, lo, fs)) ∧
    (∀ s : AgentState, s.fs.pending.lookup task_file = none →
      claim_task s task_file now false = (none, s)) ∧
    (∀ (dh : AgentState → Task → Bool) (t : Task)
        (rest : List (String × Task)) (s : AgentState),
      s.fs.pending.lookup task_file = none →
      dependencies_satisfied s.fs t = true → dh s t = true →
      monitor_go dh now ((task_file, t) :: rest) s
        = (task_file :: (monitor_go dh now rest s).1,
           (monitor_go dh now rest s).2.1,
           (monitor_go dh now rest s).2.2)) := by
  refine ⟨?_, ?_, ?_, ?_⟩
  · have hinv := race_run_inv task_file now a1 a2 choices
      { pc1 := ClaimPC.start, pc2 := ClaimPC.start,
        local1 := lo1, local2 := lo2, fs := fs0 }
      ⟨fun hw => by rcases hw with hw | hw <;> exact Bool.noConfusion hw,
       fun hw => Bool.noConfusion hw.1⟩
    exact hinv.2
  · intro agent lo fs hnone
    simp [claim_step, hnone]
  · intro s hnone
    simp [claim_task, hnone]
  · intro dh t rest s hnone hdep hdh
    have hcl : claim_task s task_file now false = (none, s) := by
      simp [claim_task, hnone]
    simp [monitor_go, hdep, hdh, hcl]

/-- Witness for C1 at a concrete input: two agents, a concrete schedule in
which agent A's rename lands first; agent B does not win, and a
`claim_task` call against a state without the pending file returns `None`
leaving the state untouched. -/
theorem claim_race_mutual_exclusion_witness :
    (¬ (claim_winner (race_run "T1.json" "t1" "agentA" "agentB"
          [true, true, false, false]
          { pc1 := ClaimPC.start, pc2 := ClaimPC.start,
            local1 := [], local2 := [],
            fs := { pending := [("T1.json", { id := "T1" : Task })] } }).pc1
          = true ∧
        claim_winner (race_run "T1.json" "t1" "agentA" "agentB"
          [true, true, false, false]
          { pc1 := ClaimPC.start, pc2 := ClaimPC.start,
            local1 := [], local2 := [],
            fs := { pending := [("T1.json", { id := "T1" : Task })] } }).pc2
          = true)) ∧
    claim_task { agent_id := "agentB" : AgentState } "T1.json" "t1" false
      = (none, { agent_id := "agentB" : AgentState }) := by
  have h := claim_race_mutual_exclusion "T1.json" "t1" "agentA" "agentB"
    [] [] { pending := [("T1.json", { id := "T1" : Task })] }
    [true, true, false, false]
  exact ⟨h.1, h.2.2.1 { agent_id := "agentB" : AgentState } (by decide)⟩


/-! ## C8: serialization round trip — character and digit lemmas -/

theorem char_valid_nat (c : Char) :
    c.toNat < 55296 ∨ (57343 < c.toNat ∧ c.toNat < 1114112) := by
  rcases c.valid with h | ⟨h1, h2⟩
  · exact Or.inl (UInt32.toNat_lt_of_lt (by decide) h)
  · exact Or.inr ⟨UInt32.lt_toNat_of_lt (m := 57343) (by decide) h1,
      UInt32.toNat_lt_of_lt (by decide) h2⟩

theorem char_ofNat_eq (c : Char) (m : Nat) (h : c.toNat = m) :
    Char.ofNat m = c := by
  rw [← h]
  exact Char.ofNat_toNat c

theorem parseHexDigit_hexDigitChar :
    ∀ d, d < 16 → parseHexDigit (hexDigitChar d) = some d := by decide

theorem digitChar_spec :
    ∀ d, d < 10 → isDigitChar (digitChar d) = true ∧
      (digitChar d).toNat = 48 + d := by decide

theorem nondigit_dispatch (c : Char) (h : isDigitChar c = true ∨ c = '-') :
    c ≠ 'n' ∧ c ≠ 't' ∧ c ≠ 'f' ∧ c ≠ '"' ∧ c ≠ '[' ∧ c ≠ lbrace ∧
      isWsChar c = false ∧ c ≠ ']' := by
  rcases h with h | rfl
  · have hb : 48 ≤ c.toNat ∧ c.toNat ≤ 57 := by simpa [isDigitChar] using h
    refine ⟨?_, ?_, ?_, ?_, ?_, ?_, ?_, ?_⟩
    · intro he; subst he; revert hb; decide
    · intro he; subst he; revert hb; decide
    · intro he; subst he; revert hb; decide
    · intro he; subst he; revert hb; decide
    · intro he; subst he; revert hb; decide
    · intro he; subst he; revert hb; decide
    · cases hw : isWsChar c with
      | false => rfl
      | true =>
          exfalso
          have hws : c = ' ' ∨ c = '\t' ∨ c = '\n' ∨ c = '\r' := by
            simpa [isWsChar] using hw
          rcases hws with rfl | rfl | rfl | rfl <;> revert hb <;> decide
    · intro he; subst he; revert hb; decide
  · refine ⟨by decide, by decide, by decide, by decide, by decide, ?_,
      by decide, by decide⟩
    rw [lbrace]
    decide

/-! whitespace lemmas -/

theorem skipWs_cons_ws (c : Char) (l : List Char) (h : isWsChar c = true) :
    skipWs (c :: l) = skipWs l := by
  simp [skipWs, h]

theorem skipWs_not_ws (c : Char) (l : List Char) (h : isWsChar c = false) :
    skipWs (c :: l) = c :: l := by
  simp [skipWs, h]

theorem skipWs_append_ws (ws l : List Char)
    (h : ∀ c ∈ ws, isWsChar c = true) : skipWs (ws ++ l) = skipWs l := by
  induction ws with
  | nil => rfl
  | cons c ws ih =>
      rw [List.cons_append, skipWs_cons_ws _ _ (h c (List.mem_cons_self _ _))]
      exact ih (fun c hc => h c (List.mem_cons_of_mem _ hc))

theorem indentChars_ws (k : Nat) : ∀ c ∈ indentChars k, isWsChar c = true := by
  intro c hc
  rw [indentChars] at hc
  rw [List.eq_of_mem_replicate hc]
  rfl

/-! digit-run lemmas -/

theorem natToChars_head (m : Nat) :
    ∃ c cs, natToChars m = c :: cs ∧ isDigitChar c = true := by
  induction m using Nat.strong_induction_on with
  | _ m ih =>
      rw [natToChars]
      by_cases h : m < 10
      · rw [if_pos h]
        exact ⟨digitChar m, [], rfl, (digitChar_spec m h).1⟩
      · rw [if_neg h]
        obtain ⟨c, cs, hcs, hd⟩ :=
          ih (m / 10) (Nat.div_lt_self (by omega) (by omega))
        exact ⟨c, cs ++ [digitChar (m % 10)], by rw [hcs]; rfl, hd⟩

theorem parseDigitsAux_stop (acc : Nat) (l : List Char) (h : numSafe l) :
    parseDigitsAux acc l = (acc, l) := by
  cases l with
  | nil => rfl
  | cons c rest =>
      simp only [numSafe] at h
      simp [parseDigitsAux, h]

theorem parseDigitsAux_shift (m acc : Nat) (rest : List Char) :
    parseDigitsAux acc (natToChars m ++ rest)
      = parseDigitsAux (acc * 10 ^ (natToChars m).length + m) rest := by
  induction m using Nat.strong_induction_on generalizing acc rest with
  | _ m ih =>
      by_cases h : m < 10
      · rw [natToChars, if_pos h]
        obtain ⟨hd1, hd2⟩ := digitChar_spec m h
        simp only [List.singleton_append, List.length_singleton, pow_one,
          parseDigitsAux, hd1, if_true, hd2]
        congr 2
        omega
      · have hlt : m / 10 < m := Nat.div_lt_self (by omega) (by omega)
        have h9 : m % 10 < 10 := Nat.mod_lt _ (by omega)
        obtain ⟨he1, he2⟩ := digitChar_spec (m % 10) h9
        rw [natToChars, if_neg h, List.append_assoc, ih (m / 10) hlt,
          List.singleton_append]
        simp only [parseDigitsAux, he1, if_true, he2]
        rw [List.length_append, List.length_singleton, pow_succ, ← mul_assoc]
        have harg : ∀ x y : Nat, x = y →
            parseDigitsAux x rest = parseDigitsAux y rest := by
          intro x y hxy
          rw [hxy]
        apply harg
        set k := acc * 10 ^ (natToChars (m / 10)).length with hk
        omega

theorem parseDigitsAux_natToChars (m : Nat) (rest : List Char)
    (h : numSafe rest) :
    parseDigitsAux 0 (natToChars m ++ rest) = (m, rest) := by
  rw [parseDigitsAux_shift, Nat.zero_mul, Nat.zero_add,
    parseDigitsAux_stop _ _ h]

theorem parseNumber_intToChars (n : Int) (rest : List Char) (h : numSafe rest) :
    parseNumber (intToChars n ++ rest) = some (n, rest) := by
  obtain ⟨c, cs, hcs, hd⟩ := natToChars_head n.natAbs
  have hnotminus : c ≠ '-' := by
    intro he
    subst he
    revert hd
    decide
  by_cases hn : n < 0
  · rw [intToChars, if_pos hn, List.cons_append, hcs, List.cons_append]
    have hstep : parseNumber ('-' :: c :: (cs ++ rest))
        = some (-(((parseDigitsAux 0 (c :: (cs ++ rest))).1 : Nat) : Int),
            (parseDigitsAux 0 (c :: (cs ++ rest))).2) := by
      simp [parseNumber, hd]
    rw [hstep, ← List.cons_append, ← hcs, parseDigitsAux_natToChars _ _ h]
    have hval : -(((n.natAbs : Nat) : Int)) = n := by omega
    rw [hval]
  · rw [intToChars, if_neg hn, hcs, List.cons_append]
    have hstep : parseNumber (c :: (cs ++ rest))
        = some ((((parseDigitsAux 0 (c :: (cs ++ rest))).1 : Nat) : Int),
            (parseDigitsAux 0 (c :: (cs ++ rest))).2) := by
      simp [parseNumber, hd, hnotminus]
    rw [hstep, ← List.cons_append, ← hcs, parseDigitsAux_natToChars _ _ h]
    have hval : (((n.natAbs : Nat) : Int)) = n := by omega
    rw [hval]




/-! string-literal round trip: stepping lemmas for `parseStringBody`, then
the escape round trip -/

theorem parseHex4_hex4 (m : Nat) (hm : m < 65536) (l : List Char) :
    parseHex4 (hex4 m ++ l) = some (m, l) := by
  have hm1 : m / 4096 % 16 < 16 := Nat.mod_lt _ (by omega)
  have hm2 : m / 256 % 16 < 16 := Nat.mod_lt _ (by omega)
  have hm3 : m / 16 % 16 < 16 := Nat.mod_lt _ (by omega)
  have hm4 : m % 16 < 16 := Nat.mod_lt _ (by omega)
  rw [show hex4 m = [hexDigitChar (m / 4096 % 16), hexDigitChar (m / 256 % 16),
    hexDigitChar (m / 16 % 16), hexDigitChar (m % 16)] from rfl]
  simp only [List.cons_append, List.nil_append, parseHex4,
    parseHexDigit_hexDigitChar _ hm1, parseHexDigit_hexDigitChar _ hm2,
    parseHexDigit_hexDigitChar _ hm3, parseHexDigit_hexDigitChar _ hm4]
  have hE : ((m / 4096 % 16 * 16 + m / 256 % 16) * 16 + m / 16 % 16) * 16
      + m % 16 = m := by omega
  rw [hE]

theorem parseUEscape_cons (l : List Char) :
    parseUEscape ('\\' :: 'u' :: l) = parseHex4 l := rfl

theorem psb_quote (fuel : Nat) (l : List Char) :
    parseStringBody (fuel + 1) ('"' :: l) = some ([], l) := by
  simp only [parseStringBody, if_true]

theorem psb_plain (fuel : Nat) (c : Char) (l cs' r : List Char) (h1 : c ≠ '"')
    (h2 : c ≠ '\\') (h : parseStringBody fuel l = some (cs', r)) :
    parseStringBody (fuel + 1) (c :: l) = some (c :: cs', r) := by
  simp only [parseStringBody]
  rw [if_neg h1, if_neg h2, h]
  rfl

theorem psb_short (fuel : Nat) (e u : Char) (l cs' r : List Char)
    (hne : e ≠ 'u') (he : unescapeShort e = some u)
    (h : parseStringBody fuel l = some (cs', r)) :
    parseStringBody (fuel + 1) ('\\' :: e :: l) = some (u :: cs', r) := by
  simp only [parseStringBody, if_true]
  rw [if_neg hne, he, h]
  rfl

theorem psb_u (fuel : Nat) (n : Nat) (l rest3 cs' r : List Char)
    (hp : parseHex4 l = some (n, rest3))
    (hno1 : ¬ (55296 ≤ n ∧ n < 56320)) (hno2 : ¬ (56320 ≤ n ∧ n < 57344))
    (h : parseStringBody fuel rest3 = some (cs', r)) :
    parseStringBody (fuel + 1) ('\\' :: 'u' :: l)
      = some (Char.ofNat n :: cs', r) := by
  simp only [parseStringBody, if_true, hp]
  rw [if_neg hno1, if_neg hno2, h]
  rfl

theorem psb_pair (fuel : Nat) (n m : Nat) (l rest3 rest4 cs' r : List Char)
    (hp : parseHex4 l = some (n, rest3))
    (hyes1 : 55296 ≤ n ∧ n < 56320)
    (hq : parseUEscape rest3 = some (m, rest4))
    (hyes2 : 56320 ≤ m ∧ m < 57344)
    (h : parseStringBody fuel rest4 = some (cs', r)) :
    parseStringBody (fuel + 1) ('\\' :: 'u' :: l)
      = some (Char.ofNat (65536 + (n - 55296) * 1024 + (m - 56320))
          :: cs', r) := by
  simp only [parseStringBody, if_true, hp, hq]
  rw [if_pos hyes1, if_pos hyes2, h]
  rfl

theorem escapeString_cons (c : Char) (cs : List Char) :
    escapeString (c :: cs) = escapeChar c ++ escapeString cs := by
  simp [escapeString]

theorem parseStringBody_escape (s rest : List Char) (fuel : Nat)
    (hf : s.length < fuel) :
    parseStringBody fuel (escapeString s ++ '"' :: rest) = some (s, rest) := by
  induction s generalizing fuel with
  | nil =>
      cases fuel with
      | zero => omega
      | succ f =>
          rw [show escapeString [] = [] from rfl, List.nil_append]
          exact psb_quote f rest
  | cons c cs ih =>
      cases fuel with
      | zero => omega
      | succ f =>
          have hcf : cs.length < f := by
            simp only [List.length_cons] at hf
            omega
          have ihf := ih f hcf
          rw [escapeString_cons, List.append_assoc]
          have hval := char_valid_nat c
          by_cases h1 : c = '"'
          · subst h1
            rw [show escapeChar '"' = ['\\', '"'] from rfl, List.cons_append,
              List.cons_append, List.nil_append]
            exact psb_short f '"' '"' _ cs rest (by decide) (by decide) ihf
          · by_cases h2 : c = '\\'
            · subst h2
              rw [show escapeChar '\\' = ['\\', '\\'] from rfl,
                List.cons_append, List.cons_append, List.nil_append]
              exact psb_short f '\\' '\\' _ cs rest (by decide) (by decide) ihf
            · by_cases h3 : c.toNat = 8
              · rw [escapeChar, if_neg h1, if_neg h2, if_pos h3,
                  List.cons_append, List.cons_append, List.nil_append]
                rw [psb_short f 'b' (Char.ofNat 8) _ cs rest (by decide)
                  (by decide) ihf, char_ofNat_eq c 8 h3]
              · by_cases h4 : c.toNat = 9
                · rw [escapeChar, if_neg h1, if_neg h2, if_neg h3, if_pos h4,
                    List.cons_append, List.cons_append, List.nil_append]
                  rw [psb_short f 't' '\t' _ cs rest (by decide) (by decide)
                    ihf, show '\t' = Char.ofNat 9 from rfl,
                    char_ofNat_eq c 9 h4]
                · by_cases h5 : c.toNat = 10
                  · rw [escapeChar, if_neg h1, if_neg h2, if_neg h3,
                      if_neg h4, if_pos h5, List.cons_append, List.cons_append,
                      List.nil_append]
                    rw [psb_short f 'n' '\n' _ cs rest (by decide) (by decide)
                      ihf, show '\n' = Char.ofNat 10 from rfl,
                      char_ofNat_eq c 10 h5]
                  · by_cases h6 : c.toNat = 12
                    · rw [escapeChar, if_neg h1, if_neg h2, if_neg h3,
                        if_neg h4, if_neg h5, if_pos h6, List.cons_append,
                        List.cons_append, List.nil_append]
                      rw [psb_short f 'f' (Char.ofNat 12) _ cs rest
                        (by decide) (by decide) ihf, char_ofNat_eq c 12 h6]
                    · by_cases h7 : c.toNat = 13
                      · rw [escapeChar, if_neg h1, if_neg h2, if_neg h3,
                          if_neg h4, if_neg h5, if_neg h6, if_pos h7,
                          List.cons_append, List.cons_append, List.nil_append]
                        rw [psb_short f 'r' (Char.ofNat 13) _ cs rest
                          (by decide) (by decide) ihf, char_ofNat_eq c 13 h7]
                      · by_cases h8 : 32 ≤ c.toNat ∧ c.toNat ≤ 126
                        · rw [escapeChar, if_neg h1, if_neg h2, if_neg h3,
                            if_neg h4, if_neg h5, if_neg h6, if_neg h7,
                            if_pos h8, List.cons_append, List.nil_append]
                          exact psb_plain f c _ cs rest h1 h2 ihf
                        · by_cases h9 : c.toNat < 65536
                          · have hesc : escapeChar c
                                = '\\' :: 'u' :: hex4 c.toNat := by
                              rw [escapeChar, if_neg h1, if_neg h2, if_neg h3,
                                if_neg h4, if_neg h5, if_neg h6, if_neg h7,
                                if_neg h8, if_pos h9]
                            rw [hesc, List.cons_append, List.cons_append]
                            rw [psb_u f c.toNat _ _ cs rest
                              (parseHex4_hex4 c.toNat h9 _)
                              (by omega) (by omega) ihf, Char.ofNat_toNat]
                          · have hesc : escapeChar c
                                = '\\' :: 'u' ::
                                  (hex4 (55296 + (c.toNat - 65536) / 1024) ++
                                   ('\\' :: 'u' ::
                                    hex4 (56320 + (c.toNat - 65536) % 1024))) := by
                              rw [escapeChar, if_neg h1, if_neg h2, if_neg h3,
                                if_neg h4, if_neg h5, if_neg h6, if_neg h7,
                                if_neg h8, if_neg h9]
                              rfl
                            have hup : c.toNat < 1114112 := by omega
                            rw [hesc, List.cons_append, List.cons_append,
                              List.append_assoc, List.cons_append,
                              List.cons_append]
                            rw [psb_pair f (55296 + (c.toNat - 65536) / 1024)
                              (56320 + (c.toNat - 65536) % 1024) _ _ _ cs rest
                              (parseHex4_hex4 _ (by omega) _)
                              (by omega)
                              ((parseUEscape_cons _).trans
                                (parseHex4_hex4 _ (by omega) _))
                              (by omega) ihf]
                            have hcomb : 65536 +
                                (55296 + (c.toNat - 65536) / 1024 - 55296) * 1024 +
                                (56320 + (c.toNat - 65536) % 1024 - 56320)
                                = c.toNat := by omega
                            rw [hcomb, Char.ofNat_toNat]


/-! value-level round trip: size bounds, induction principle, head
characterizations -/

theorem jsize_pos (j : Json) : 1 ≤ jsize j := by
  cases j <;> simp [jsize]

theorem jsizeItems_pos (xs : List Json) : 1 ≤ jsizeItems xs := by
  cases xs <;> simp [jsizeItems] <;> omega

theorem jsizeMembers_pos (ms : List (String × Json)) : 1 ≤ jsizeMembers ms := by
  rcases ms with _ | ⟨⟨k, v⟩, ms⟩ <;> simp [jsizeMembers] <;> omega

theorem json_strong_ind (P : Json → Prop)
    (hnull : P Json.null) (hbool : ∀ b, P (Json.bool b))
    (hnum : ∀ n, P (Json.num n)) (hstr : ∀ s, P (Json.str s))
    (harr : ∀ xs, (∀ x ∈ xs, P x) → P (Json.arr xs))
    (hobj : ∀ ms, (∀ kv ∈ ms, P kv.2) → P (Json.obj ms)) :
    ∀ j, P j := fun j =>
  match j with
  | Json.null => hnull
  | Json.bool b => hbool b
  | Json.num n => hnum n
  | Json.str s => hstr s
  | Json.arr xs => harr xs (fun x hx =>
      json_strong_ind P hnull hbool hnum hstr harr hobj x)
  | Json.obj ms => hobj ms (fun kv hkv =>
      json_strong_ind P hnull hbool hnum hstr harr hobj kv.2)
termination_by j => sizeOf j
decreasing_by
  · have h1 := List.sizeOf_lt_of_mem hx
    simp only [Json.arr.sizeOf_spec]
    omega
  · have h1 := List.sizeOf_lt_of_mem hkv
    have h2 : sizeOf kv.2 < sizeOf kv := by
      cases kv
      simp only [Prod.mk.sizeOf_spec]
      omega
    simp only [Json.obj.sizeOf_spec]
    omega

theorem numSafe_head (c : Char) (l : List Char) (h : isDigitChar c = false) :
    numSafe (c :: l) := h

theorem numSafe_dumpItems (ys : List Json) (li : Nat) (l : List Char) :
    numSafe (dumpItems ys li ++ '\n' :: l) := by
  cases ys with
  | nil =>
      rw [show dumpItems [] li = [] from rfl, List.nil_append]
      exact numSafe_head _ _ (by decide)
  | cons y ys =>
      rw [show dumpItems (y :: ys) li = ',' :: '\n' :: (indentChars li ++
        dumpVal y li ++ dumpItems ys li) from rfl, List.cons_append]
      exact numSafe_head _ _ (by decide)

theorem numSafe_dumpMembers (ms : List (String × Json)) (li : Nat)
    (l : List Char) :
    numSafe (dumpMembers ms li ++ '\n' :: l) := by
  cases ms with
  | nil =>
      rw [show dumpMembers [] li = [] from rfl, List.nil_append]
      exact numSafe_head _ _ (by decide)
  | cons kv ms =>
      obtain ⟨k, v⟩ := kv
      rw [show dumpMembers ((k, v) :: ms) li = ',' :: '\n' :: (indentChars li
        ++ dumpString k ++ ':' :: ' ' :: (dumpVal v li ++ dumpMembers ms li))
        from rfl, List.cons_append]
      exact numSafe_head _ _ (by decide)

theorem dumpVal_head (j : Json) (level : Nat) :
    ∃ c cs, dumpVal j level = c :: cs ∧ isWsChar c = false ∧ c ≠ ']' := by
  cases j with
  | null => exact ⟨'n', _, rfl, by decide, by decide⟩
  | bool b =>
      cases b
      · exact ⟨'f', _, rfl, by decide, by decide⟩
      · exact ⟨'t', _, rfl, by decide, by decide⟩
  | num n =>
      by_cases hneg : n < 0
      · refine ⟨'-', natToChars n.natAbs, ?_, by decide, by decide⟩
        rw [show dumpVal (Json.num n) level = intToChars n from rfl,
          intToChars, if_pos hneg]
      · obtain ⟨c, cs, hcs, hd⟩ := natToChars_head n.natAbs
        refine ⟨c, cs, ?_, ?_, ?_⟩
        · rw [show dumpVal (Json.num n) level = intToChars n from rfl,
            intToChars, if_neg hneg, hcs]
        · exact (nondigit_dispatch c (Or.inl hd)).2.2.2.2.2.2.1
        · exact (nondigit_dispatch c (Or.inl hd)).2.2.2.2.2.2.2
  | str s => exact ⟨'"', escapeString s.data ++ ['"'], rfl, by decide, by decide⟩
  | arr xs =>
      cases xs
      · exact ⟨'[', _, rfl, by decide, by decide⟩
      · exact ⟨'[', _, rfl, by decide, by decide⟩
  | obj ms =>
      rcases ms with _ | ⟨⟨k, v⟩, ms⟩
      · exact ⟨lbrace, _, rfl, by decide, by decide⟩
      · exact ⟨lbrace, _, rfl, by decide, by decide⟩

theorem escapeChar_length_pos (c : Char) : 1 ≤ (escapeChar c).length := by
  rw [escapeChar]
  repeat' split
  all_goals simp

theorem escapeString_length (s : List Char) :
    s.length ≤ (escapeString s).length := by
  induction s with
  | nil => simp [escapeString]
  | cons c cs ih =>
      rw [escapeString_cons, List.length_append, List.length_cons]
      have := escapeChar_length_pos c
      omega


/-! the three container-parsing round-trip lemmas -/

theorem skipWs_dumpVal (v : Json) (level : Nat) (l : List Char) :
    skipWs (dumpVal v level ++ l) = dumpVal v level ++ l := by
  obtain ⟨c, cs, hc, hw, _⟩ := dumpVal_head v level
  rw [hc, List.cons_append, skipWs_not_ws _ _ hw]

theorem parse_member_rt (k : String) (v : Json) (ihv : ValRT v)
    (level : Nat) (rest : List Char) (fuel : Nat)
    (hf : 1 + jsize v ≤ fuel) (hn : numSafe rest) :
    parseMember fuel (dumpString k ++ ':' :: ' ' :: (dumpVal v level ++ rest))
      = some ((k, v), rest) := by
  cases fuel with
  | zero => omega
  | succ f =>
      rw [dumpString, List.cons_append, List.append_assoc]
      have hlen : k.data.length < (escapeString k.data ++
          ('"' :: (':' :: ' ' :: (dumpVal v level ++ rest)))).length := by
        rw [List.length_append, List.length_cons]
        have := escapeString_length k.data
        omega
      have hpsb := parseStringBody_escape k.data
        (':' :: ' ' :: (dumpVal v level ++ rest)) _ hlen
      have hskip : skipWs (':' :: ' ' :: (dumpVal v level ++ rest))
          = ':' :: ' ' :: (dumpVal v level ++ rest) :=
        skipWs_not_ws _ _ (by decide)
      have hskip2 : skipWs (' ' :: (dumpVal v level ++ rest))
          = dumpVal v level ++ rest := by
        rw [skipWs_cons_ws _ _ (by decide), skipWs_dumpVal]
      have hval := ihv level rest f (by omega) hn
      simp only [parseMember, List.singleton_append, hpsb, hskip, hskip2, hval]


theorem parse_items_rt (xs : List Json) (ihx : ∀ x ∈ xs, ValRT x) :
    ∀ (li : Nat) (ws rest : List Char) (fuel : Nat),
      jsizeItems xs ≤ fuel → (∀ c ∈ ws, isWsChar c = true) → numSafe rest →
      parseItems fuel (dumpItems xs li ++ '\n' :: (ws ++ ']' :: rest))
        = some (xs, rest) := by
  induction xs with
  | nil =>
      intro li ws rest fuel hf hws hn
      cases fuel with
      | zero => simp [jsizeItems] at hf
      | succ f =>
          rw [show dumpItems [] li = [] from rfl, List.nil_append]
          have hskip : skipWs ('\n' :: (ws ++ ']' :: rest)) = ']' :: rest := by
            rw [skipWs_cons_ws _ _ (by decide), skipWs_append_ws _ _ hws,
              skipWs_not_ws _ _ (by decide)]
          simp only [parseItems, hskip]
  | cons y ys ih =>
      intro li ws rest fuel hf hws hn
      have hy := jsize_pos y
      have hys := jsizeItems_pos ys
      rw [show jsizeItems (y :: ys) = 1 + jsize y + jsizeItems ys from rfl]
        at hf
      cases fuel with
      | zero => omega
      | succ f =>
          rw [show dumpItems (y :: ys) li = ',' :: '\n' :: (indentChars li ++
            dumpVal y li ++ dumpItems ys li) from rfl, List.cons_append,
            List.cons_append, List.append_assoc, List.append_assoc]
          have hskip1 : skipWs (',' :: ('\n' :: (indentChars li ++
              (dumpVal y li ++ (dumpItems ys li ++ '\n' :: (ws ++ ']' ::
                rest))))))
              = ',' :: ('\n' :: (indentChars li ++ (dumpVal y li ++
                (dumpItems ys li ++ '\n' :: (ws ++ ']' :: rest))))) :=
            skipWs_not_ws _ _ (by decide)
          have hskip2 : skipWs ('\n' :: (indentChars li ++ (dumpVal y li ++
              (dumpItems ys li ++ '\n' :: (ws ++ ']' :: rest)))))
              = dumpVal y li ++ (dumpItems ys li ++ '\n' :: (ws ++ ']' ::
                rest)) := by
            rw [skipWs_cons_ws _ _ (by decide),
              skipWs_append_ws _ _ (indentChars_ws li), skipWs_dumpVal]
          have hval := ihx y (List.mem_cons_self _ _) li
            (dumpItems ys li ++ '\n' :: (ws ++ ']' :: rest)) f (by omega)
            (numSafe_dumpItems ys li _)
          have hitems := ih (fun x hx => ihx x (List.mem_cons_of_mem _ hx))
            li ws rest f (by omega) hws hn
          simp only [parseItems, hskip1, hskip2, hval, hitems]

theorem parse_members_rt (ms : List (String × Json))
    (ihm : ∀ kv ∈ ms, ValRT kv.2) :
    ∀ (li : Nat) (ws rest : List Char) (fuel : Nat),
      jsizeMembers ms ≤ fuel → (∀ c ∈ ws, isWsChar c = true) → numSafe rest →
      parseMembers fuel (dumpMembers ms li ++ '\n' :: (ws ++ rbrace :: rest))
        = some (ms, rest) := by
  induction ms with
  | nil =>
      intro li ws rest fuel hf hws hn
      cases fuel with
      | zero => simp [jsizeMembers] at hf
      | succ f =>
          rw [show dumpMembers [] li = [] from rfl, List.nil_append]
          have hskip : skipWs ('\n' :: (ws ++ rbrace :: rest))
              = rbrace :: rest := by
            rw [skipWs_cons_ws _ _ (by decide), skipWs_append_ws _ _ hws,
              skipWs_not_ws _ _ (by decide)]
          simp only [parseMembers, hskip, if_true]
  | cons kv ms ih =>
      obtain ⟨k, v⟩ := kv
      intro li ws rest fuel hf hws hn
      have hv := jsize_pos v
      have hms := jsizeMembers_pos ms
      rw [show jsizeMembers ((k, v) :: ms) = 1 + jsize v + jsizeMembers ms
        from rfl] at hf
      cases fuel with
      | zero => omega
      | succ f =>
          have hshape : dumpMembers ((k, v) :: ms) li ++ '\n' :: (ws ++
              rbrace :: rest)
              = ',' :: ('\n' :: (indentChars li ++ (dumpString k ++ ':' :: ' '
                :: (dumpVal v li ++ (dumpMembers ms li ++ '\n' :: (ws ++
                  rbrace :: rest)))))) := by
            rw [show dumpMembers ((k, v) :: ms) li = ',' :: '\n' ::
              (indentChars li ++ dumpString k ++ ':' :: ' ' :: (dumpVal v li
                ++ dumpMembers ms li)) from rfl]
            simp [List.append_assoc]
          rw [hshape]
          have hskip1 : skipWs (',' :: ('\n' :: (indentChars li ++
              (dumpString k ++ ':' :: ' ' :: (dumpVal v li ++
                (dumpMembers ms li ++ '\n' :: (ws ++ rbrace :: rest)))))))
              = ',' :: ('\n' :: (indentChars li ++ (dumpString k ++ ':' :: ' '
                :: (dumpVal v li ++ (dumpMembers ms li ++ '\n' :: (ws ++
                  rbrace :: rest)))))) :=
            skipWs_not_ws _ _ (by decide)
          have hskip2 : skipWs ('\n' :: (indentChars li ++ (dumpString k ++
              ':' :: ' ' :: (dumpVal v li ++ (dumpMembers ms li ++ '\n' ::
                (ws ++ rbrace :: rest))))))
              = dumpString k ++ ':' :: ' ' :: (dumpVal v li ++
                (dumpMembers ms li ++ '\n' :: (ws ++ rbrace :: rest))) := by
            rw [skipWs_cons_ws _ _ (by decide),
              skipWs_append_ws _ _ (indentChars_ws li), dumpString,
              List.cons_append, skipWs_not_ws _ _ (by decide)]
          have hmem := parse_member_rt k v
            (ihm (k, v) (List.mem_cons_self _ _)) li
            (dumpMembers ms li ++ '\n' :: (ws ++ rbrace :: rest)) f (by omega)
            (numSafe_dumpMembers ms li _)
          have hmembers := ih (fun kv hkv => ihm kv
            (List.mem_cons_of_mem _ hkv)) li ws rest f (by omega) hws hn
          simp only [parseMembers, hskip1, hskip2]
          rw [if_neg (by decide)]
          simp only [if_true, hmem, hmembers]


/-- Round trip for every JSON value: the serializer's output parses back to
the same value with the continuation untouched. -/
theorem parseVal_rt : ∀ j : Json, ValRT j := by
  intro j
  induction j using json_strong_ind with
  | hnull =>
      intro level rest fuel hf hn
      have h1 := jsize_pos Json.null
      cases fuel with
      | zero => omega
      | succ f => rfl
  | hbool b =>
      intro level rest fuel hf hn
      have h1 := jsize_pos (Json.bool b)
      cases fuel with
      | zero => omega
      | succ f => cases b <;> rfl
  | hnum n =>
      intro level rest fuel hf hn
      have h1 := jsize_pos (Json.num n)
      cases fuel with
      | zero => omega
      | succ f =>
          rw [show dumpVal (Json.num n) level = intToChars n from rfl]
          obtain ⟨c, cs, hcs, hcprop⟩ : ∃ c cs, intToChars n = c :: cs ∧
              (isDigitChar c = true ∨ c = '-') := by
            obtain ⟨c0, cs0, hh, hd⟩ := natToChars_head n.natAbs
            by_cases hneg : n < 0
            · exact ⟨'-', natToChars n.natAbs,
                by rw [intToChars, if_pos hneg], Or.inr rfl⟩
            · exact ⟨c0, cs0, by rw [intToChars, if_neg hneg, hh], Or.inl hd⟩
          obtain ⟨hn1, hn2, hn3, hn4, hn5, hn6, _, _⟩ :=
            nondigit_dispatch c hcprop
          rw [hcs, List.cons_append]
          simp only [parseVal]
          rw [if_neg hn1, if_neg hn2, if_neg hn3, if_neg hn4, if_neg hn5,
            if_neg hn6, ← List.cons_append, ← hcs,
            parseNumber_intToChars n rest hn]
  | hstr s =>
      intro level rest fuel hf hn
      have h1 := jsize_pos (Json.str s)
      cases fuel with
      | zero => omega
      | succ f =>
          rw [show dumpVal (Json.str s) level
            = '"' :: (escapeString s.data ++ ['"']) from rfl,
            List.cons_append, List.append_assoc, List.singleton_append]
          have hlen : s.data.length
              < (escapeString s.data ++ '"' :: rest).length := by
            rw [List.length_append, List.length_cons]
            have := escapeString_length s.data
            omega
          have hpsb := parseStringBody_escape s.data rest _ hlen
          simp only [parseVal, hpsb]
          rw [if_neg (show ('"' : Char) ≠ 'n' by decide),
            if_neg (show ('"' : Char) ≠ 't' by decide),
            if_neg (show ('"' : Char) ≠ 'f' by decide), if_pos trivial]
  | harr xs ihx =>
      intro level rest fuel hf hn
      cases xs with
      | nil =>
          have h1 := jsize_pos (Json.arr [])
          cases fuel with
          | zero => omega
          | succ f => rfl
      | cons x xs =>
          have h1 := jsize_pos x
          have h2 := jsizeItems_pos xs
          rw [show jsize (Json.arr (x :: xs))
            = 1 + (1 + jsize x + jsizeItems xs) from rfl] at hf
          cases fuel with
          | zero => omega
          | succ f =>
              have hshape : dumpVal (Json.arr (x :: xs)) level ++ rest
                  = '[' :: ('\n' :: (indentChars (level + 1) ++
                    (dumpVal x (level + 1) ++ (dumpItems xs (level + 1) ++
                      '\n' :: (indentChars level ++ ']' :: rest))))) := by
                rw [show dumpVal (Json.arr (x :: xs)) level = '[' :: '\n' ::
                  (indentChars (level + 1) ++ dumpVal x (level + 1) ++
                   dumpItems xs (level + 1) ++ '\n' :: (indentChars level ++
                     [']'])) from rfl]
                simp [List.append_assoc]
              rw [hshape]
              obtain ⟨c, cs, hc, hw, hb⟩ := dumpVal_head x (level + 1)
              have hskip : skipWs ('\n' :: (indentChars (level + 1) ++
                  (dumpVal x (level + 1) ++ (dumpItems xs (level + 1) ++
                    '\n' :: (indentChars level ++ ']' :: rest)))))
                  = c :: (cs ++ (dumpItems xs (level + 1) ++
                    '\n' :: (indentChars level ++ ']' :: rest))) := by
                rw [skipWs_cons_ws _ _ (by decide),
                  skipWs_append_ws _ _ (indentChars_ws _), hc,
                  List.cons_append, skipWs_not_ws _ _ hw]
              have hval := ihx x (List.mem_cons_self _ _) (level + 1)
                (dumpItems xs (level + 1) ++ '\n' :: (indentChars level ++
                  ']' :: rest)) f (by omega) (numSafe_dumpItems xs _ _)
              rw [hc, List.cons_append] at hval
              have hitems := parse_items_rt xs
                (fun y hy => ihx y (List.mem_cons_of_mem _ hy)) (level + 1)
                (indentChars level) rest f (by omega) (indentChars_ws _) hn
              simp only [parseVal]
              rw [if_neg (show ('[' : Char) ≠ 'n' by decide),
                if_neg (show ('[' : Char) ≠ 't' by decide),
                if_neg (show ('[' : Char) ≠ 'f' by decide),
                if_neg (show ('[' : Char) ≠ '"' by decide), if_pos trivial,
                hskip]
              split
              · rename_i heq
                exact absurd (List.head_eq_of_cons_eq heq.symm).symm hb
              · simp only [hval, hitems]
  | hobj ms ihm =>
      intro level rest fuel hf hn
      cases ms with
      | nil =>
          have h1 := jsize_pos (Json.obj [])
          cases fuel with
          | zero => omega
          | succ f => rfl
      | cons kv ms =>
          obtain ⟨k, v⟩ := kv
          have h1 := jsize_pos v
          have h2 := jsizeMembers_pos ms
          rw [show jsize (Json.obj ((k, v) :: ms))
            = 1 + (1 + jsize v + jsizeMembers ms) from rfl] at hf
          cases fuel with
          | zero => omega
          | succ f =>
              have hshape : dumpVal (Json.obj ((k, v) :: ms)) level ++ rest
                  = lbrace :: ('\n' :: (indentChars (level + 1) ++
                    (dumpString k ++ ':' :: ' ' :: (dumpVal v (level + 1) ++
                      (dumpMembers ms (level + 1) ++ '\n' ::
                        (indentChars level ++ rbrace :: rest)))))) := by
                rw [show dumpVal (Json.obj ((k, v) :: ms)) level
                  = lbrace :: '\n' :: (indentChars (level + 1) ++
                    dumpString k ++ ':' :: ' ' :: (dumpVal v (level + 1) ++
                      dumpMembers ms (level + 1) ++ '\n' ::
                        (indentChars level ++ [rbrace]))) from rfl]
                simp [List.append_assoc]
              rw [hshape]
              simp only [parseVal]
              rw [if_neg (show lbrace ≠ 'n' by decide),
                if_neg (show lbrace ≠ 't' by decide),
                if_neg (show lbrace ≠ 'f' by decide),
                if_neg (show lbrace ≠ '"' by decide),
                if_neg (show lbrace ≠ '[' by decide), if_pos trivial]
              have hskipO : skipWs ('\n' :: (indentChars (level + 1) ++
                  (dumpString k ++ ':' :: ' ' :: (dumpVal v (level + 1) ++
                    (dumpMembers ms (level + 1) ++ '\n' ::
                      (indentChars level ++ rbrace :: rest))))))
                  = '"' :: (escapeString k.data ++ ('"' :: (':' :: ' ' ::
                    (dumpVal v (level + 1) ++ (dumpMembers ms (level + 1) ++
                      '\n' :: (indentChars level ++ rbrace :: rest)))))) := by
                rw [skipWs_cons_ws _ _ (by decide),
                  skipWs_append_ws _ _ (indentChars_ws _), dumpString,
                  List.cons_append, skipWs_not_ws _ _ (by decide),
                  List.append_assoc, List.singleton_append]
              simp only [hskipO]
              rw [if_neg (show ('"' : Char) ≠ rbrace by decide)]
              have hglue : ('"' : Char) :: (escapeString k.data ++ ('"' ::
                  (':' :: ' ' :: (dumpVal v (level + 1) ++
                    (dumpMembers ms (level + 1) ++ '\n' ::
                      (indentChars level ++ rbrace :: rest))))))
                  = dumpString k ++ ':' :: ' ' :: (dumpVal v (level + 1) ++
                    (dumpMembers ms (level + 1) ++ '\n' ::
                      (indentChars level ++ rbrace :: rest))) := by
                rw [dumpString]
                simp [List.append_assoc]
              rw [hglue]
              have hmem := parse_member_rt k v
                (ihm (k, v) (List.mem_cons_self _ _)) (level + 1)
                (dumpMembers ms (level + 1) ++ '\n' :: (indentChars level ++
                  rbrace :: rest)) f (by omega) (numSafe_dumpMembers ms _ _)
              have hmembers := parse_members_rt ms
                (fun kv hkv => ihm kv (List.mem_cons_of_mem _ hkv))
                (level + 1) (indentChars level) rest f (by omega)
                (indentChars_ws _) hn
              simp only [hmem, hmembers]

theorem intToChars_length_pos (n : Int) : 1 ≤ (intToChars n).length := by
  obtain ⟨c0, cs0, hh, _⟩ := natToChars_head n.natAbs
  by_cases hneg : n < 0
  · rw [intToChars, if_pos hneg]
    simp
  · rw [intToChars, if_neg hneg, hh]
    simp

theorem jsize_le (j : Json) : ∀ level, jsize j ≤ (dumpVal j level).length := by
  induction j using json_strong_ind with
  | hnull => intro level; simp [jsize, dumpVal]
  | hbool b => intro level; cases b <;> simp [jsize, dumpVal]
  | hnum n =>
      intro level
      have := intToChars_length_pos n
      simp only [jsize, dumpVal]
      omega
  | hstr s =>
      intro level
      simp only [jsize, dumpVal, dumpString, List.length_cons]
      omega
  | harr xs ih =>
      have hitems : ∀ (ys : List Json),
          (∀ y ∈ ys, ∀ lv, jsize y ≤ (dumpVal y lv).length) →
          ∀ lv, jsizeItems ys ≤ (dumpItems ys lv).length + 1 := by
        intro ys
        induction ys with
        | nil => intro _ lv; simp [jsizeItems, dumpItems]
        | cons y ys ihy =>
            intro hmem lv
            have hy := hmem y (List.mem_cons_self _ _) lv
            have hys := ihy (fun z hz => hmem z (List.mem_cons_of_mem _ hz)) lv
            simp only [jsizeItems, dumpItems, List.length_cons,
              List.length_append]
            omega
      intro level
      cases xs with
      | nil => simp [jsize, jsizeItems, dumpVal]
      | cons x xs =>
          have hx := ih x (List.mem_cons_self _ _) (level + 1)
          have hxs := hitems xs (fun y hy => ih y (List.mem_cons_of_mem _ hy))
            (level + 1)
          simp only [jsize, jsizeItems, dumpVal, List.length_cons,
            List.length_append, List.length_nil]
          omega
  | hobj ms ih =>
      have hmembers : ∀ (ns : List (String × Json)),
          (∀ kv ∈ ns, ∀ lv, jsize kv.2 ≤ (dumpVal kv.2 lv).length) →
          ∀ lv, jsizeMembers ns ≤ (dumpMembers ns lv).length + 1 := by
        intro ns
        induction ns with
        | nil => intro _ lv; simp [jsizeMembers, dumpMembers]
        | cons kv ns ihn =>
            intro hmem lv
            obtain ⟨k, v⟩ := kv
            have hv := hmem (k, v) (List.mem_cons_self _ _) lv
            have hns := ihn (fun z hz => hmem z (List.mem_cons_of_mem _ hz)) lv
            simp only [jsizeMembers, dumpMembers, List.length_cons,
              List.length_append] at hv hns ⊢
            omega
      intro level
      cases ms with
      | nil => simp [jsize, jsizeMembers, dumpVal]
      | cons kv ms =>
          obtain ⟨k, v⟩ := kv
          have hv := ih (k, v) (List.mem_cons_self _ _) (level + 1)
          have hms := hmembers ms
            (fun z hz => ih z (List.mem_cons_of_mem _ hz)) (level + 1)
          simp only [jsizeMembers] at hms
          simp only [jsize, jsizeMembers, dumpVal, List.length_cons,
            List.length_append, List.length_nil] at hv ⊢
          omega

theorem json_roundtrip (j : Json) : json_loads (json_dumps j) = some j := by
  have hle := jsize_le j 0
  have hrt := parseVal_rt j 0 [] ((dumpVal j 0).length + 1)
    (by omega) trivial
  rw [List.append_nil] at hrt
  have hskip := skipWs_dumpVal j 0 []
  rw [List.append_nil] at hskip
  have hlen : (json_dumps j).length = (dumpVal j 0).length := rfl
  have hdata : (json_dumps j).data = dumpVal j 0 := rfl
  unfold json_loads
  rw [hlen, hdata, hskip, hrt]
  rfl

/-- C8: for every task record, writing it with `save_task` and reading it
back with `load_task` yields exactly the same record: every field present
before the round trip is present afterwards with an equal value, because
the JSON serializer and parser are mutually inverse on every value. -/
theorem save_load_roundtrip (files : List (String × String))
    (task_file : String) (record : Json) :
    load_task (save_task files task_file record) task_file = some record := by
  show (List.lookup task_file ((task_file, json_dumps record) ::
      files.filter (fun p => p.1 ≠ task_file))).bind json_loads = some record
  simp only [List.lookup, beq_self_eq_true, Option.some_bind]
  exact json_roundtrip record

end Orc
